import Mathlib

/-!
Verification of the AetherBridge request-processing pipeline.

Shallow embedding of the core pure logic of the repository:
JSON values, the two tool-schema sanitizers, session recovery,
the account pool, the request handlers and the streaming translator,
with theorems settling the stated properties.
-/

set_option maxHeartbeats 1000000

namespace AetherBridge

/-- JSON values as used by the tool schemas, messages and upstream
responses.  Objects are association lists; the Rust code uses a map with
unique keys, and key order never matters to any property proved here.
Numbers are modelled as integers, which covers every number the embedded
code inspects. -/
inductive Json where
  | null
  | bool (b : Bool)
  | num (n : Int)
  | str (s : String)
  | arr (elems : List Json)
  | obj (fields : List (String × Json))

/-- First binding of a key in an association list (serde maps have unique
keys, so first = only). -/
def lookupField : List (String × Json) → String → Option Json
  | [], _ => none
  | (k, v) :: rest, key => if k = key then some v else lookupField rest key

/-- `Value::get(key)` on an object; `none` on every other value. -/
def Json.get : Json → String → Option Json
  | .obj fields, key => lookupField fields key
  | _, _ => none

/-- `v.get(key).and_then(|x| x.as_str())`. -/
def Json.getStr (j : Json) (key : String) : Option String :=
  match j.get key with
  | some (.str s) => some s
  | _ => none

/-- `v.get(key).and_then(|x| x.as_array())`. -/
def Json.getArr (j : Json) (key : String) : Option (List Json) :=
  match j.get key with
  | some (.arr xs) => some xs
  | _ => none

/-- Whether a key is present in an association list. -/
def hasField (fields : List (String × Json)) (key : String) : Bool :=
  (lookupField fields key).isSome

/-- Whether `pat` is a prefix of `l`, over character lists (the built-in
string primitives are not kernel-reducible, so the string tests the code
needs are defined on `String.data`). -/
def listPrefixTest : List Char → List Char → Bool
  | [], _ => true
  | _ :: _, [] => false
  | a :: as, b :: bs => a == b && listPrefixTest as bs

/-- Whether `pat` occurs as a contiguous sublist. -/
def listContainsSub (pat : List Char) : List Char → Bool
  | [] => pat.isEmpty
  | c :: rest => listPrefixTest pat (c :: rest) || listContainsSub pat rest

/-- Rust `str::contains` (substring test). -/
def containsSubstr (s pat : String) : Bool :=
  listContainsSub pat.data s.data

/-- Rust `str::starts_with`. -/
def startsWithStr (s pat : String) : Bool :=
  listPrefixTest pat.data s.data

/-- ASCII lowercasing of one character (`to_lowercase` on the inputs the
code compares is ASCII). -/
def lowerChar (c : Char) : Char :=
  if 65 ≤ c.toNat && c.toNat ≤ 90 then Char.ofNat (c.toNat + 32) else c

/-- Rust `str::to_lowercase`. -/
def lowerStr (s : String) : String :=
  ⟨s.data.map lowerChar⟩

/-! ## Tool-schema sanitization

Two sanitizers run on the request path.  `convert_anthropic_tools`
(api-server/src/routes.rs) applies `sanitize_schema` to each tool input
schema, and `build_request_body` (browser-automator/src/antigravity.rs)
then applies `AntigravityClient::sanitize_schema` to the same value via
`sanitize_tool_definition`.  Both are translated below. -/

/-- The key list removed by `sanitize_schema` in routes.rs (lines 91-99),
in source order. -/
def routesForbiddenKeys : List String :=
  ["$schema", "$id", "default", "title", "examples",
   "minLength", "maxLength", "pattern", "format",
   "minimum", "maximum", "exclusiveMinimum", "exclusiveMaximum", "multipleOf",
   "minItems", "maxItems", "uniqueItems",
   "minProperties", "maxProperties", "propertyNames",
   "const", "contentMediaType", "contentEncoding",
   "additionalProperties"]

mutual

/-- `sanitize_schema` from routes.rs: on an object, remove the forbidden
keys, then recurse into the values of `properties` (when an object), into
`items`, and into each element of `allOf`, `anyOf`, `oneOf` (when arrays).
Removal and recursion touch disjoint keys, so the single pass below is the
same function. -/
def sanitizeSchema : Json → Json
  | .obj fields => .obj (sanitizeFields fields)
  | j => j

def sanitizeFields : List (String × Json) → List (String × Json)
  | [] => []
  | (k, v) :: rest =>
    if routesForbiddenKeys.contains k then sanitizeFields rest
    else if k = "properties" then (k, sanitizeProps v) :: sanitizeFields rest
    else if k = "items" then (k, sanitizeSchema v) :: sanitizeFields rest
    else if k = "allOf" ∨ k = "anyOf" ∨ k = "oneOf" then
      (k, sanitizeSubArray v) :: sanitizeFields rest
    else (k, v) :: sanitizeFields rest

/-- Recursion into a `properties` value: sanitize each property value when
the value is an object, otherwise leave it untouched. -/
def sanitizeProps : Json → Json
  | .obj pf => .obj (sanitizePropFields pf)
  | j => j

def sanitizePropFields : List (String × Json) → List (String × Json)
  | [] => []
  | (k, v) :: rest => (k, sanitizeSchema v) :: sanitizePropFields rest

/-- Recursion into an `allOf`/`anyOf`/`oneOf` value: sanitize each element
when the value is an array, otherwise leave it untouched. -/
def sanitizeSubArray : Json → Json
  | .arr xs => .arr (sanitizeSubList xs)
  | j => j

def sanitizeSubList : List Json → List Json
  | [] => []
  | x :: rest => sanitizeSchema x :: sanitizeSubList rest

end

/-- The key list removed by `AntigravityClient::sanitize_schema`
(antigravity.rs lines 752-758). -/
def agForbiddenKeys : List String :=
  ["$schema", "$id", "$ref", "$defs", "definitions", "default", "examples"]

mutual

/-- `AntigravityClient::sanitize_schema`: on an object, remove its key
list, move `const: v` to `enum: [v]` (the insert replaces an existing
`enum`, as `Map::insert` does), then recurse into the values of
`properties` (when an object) and into `items`.  It does NOT recurse into
`allOf`/`anyOf`/`oneOf`.  The single pass below performs the same
removals and the same replacement; field order is immaterial everywhere
in this development. -/
def agSanitizeSchema : Json → Json
  | .obj fields => .obj (agFields fields (hasField fields "const"))
  | j => j

def agFields : List (String × Json) → Bool → List (String × Json)
  | [], _ => []
  | (k, v) :: rest, hasConst =>
    if agForbiddenKeys.contains k then agFields rest hasConst
    else if k = "const" then ("enum", .arr [v]) :: agFields rest hasConst
    else if k = "enum" then
      (if hasConst then agFields rest hasConst else (k, v) :: agFields rest hasConst)
    else if k = "properties" then (k, agProps v) :: agFields rest hasConst
    else if k = "items" then (k, agSanitizeSchema v) :: agFields rest hasConst
    else (k, v) :: agFields rest hasConst

def agProps : Json → Json
  | .obj pf => .obj (agPropFields pf)
  | j => j

def agPropFields : List (String × Json) → List (String × Json)
  | [] => []
  | (k, v) :: rest => (k, agSanitizeSchema v) :: agPropFields rest

end

/-- The schema actually sent upstream for a tool: routes.rs sanitizes the
`input_schema` first (`convert_anthropic_tools`), then the upstream client
sanitizes the result again (`sanitize_tool_definition` →
`AntigravityClient::sanitize_schema`). -/
def upstreamToolSchema (inputSchema : Json) : Json :=
  agSanitizeSchema (sanitizeSchema inputSchema)

mutual

/-- Whether a key occurs anywhere in a JSON value, at any depth. -/
def deepContainsKey : Json → String → Bool
  | .obj fields, key => deepFieldsContain fields key
  | .arr elems, key => deepElemsContain elems key
  | _, _ => false

def deepFieldsContain : List (String × Json) → String → Bool
  | [], _ => false
  | (k, v) :: rest, key =>
    k == key || deepContainsKey v key || deepFieldsContain rest key

def deepElemsContain : List Json → String → Bool
  | [], _ => false
  | x :: rest, key => deepContainsKey x key || deepElemsContain rest key

end

/-- A schema whose only content is a `$ref` inside an `anyOf` subschema. -/
def refInAnyOfSchema : Json :=
  .obj [("anyOf", .arr [.obj [("$ref", .str "#/$defs/A")]])]

/-- C3: the claim says every forbidden key, including `$ref`, `$defs` and
`definitions`, is removed at any depth, including inside `anyOf`
subschemas.  The code violates this: the routes sanitizer recurses into
`anyOf` but its key list omits `$ref`/`$defs`/`definitions`, while the
upstream-client sanitizer removes those keys but never recurses into
`allOf`/`anyOf`/`oneOf`.  Evaluating the composed request-path
sanitization on a schema holding `$ref` inside `anyOf` shows the `$ref`
reaching the upstream schema unchanged. -/
theorem c3_ref_survives_in_anyOf :
    upstreamToolSchema refInAnyOfSchema =
      .obj [("anyOf", .arr [.obj [("$ref", .str "#/$defs/A")]])] ∧
    deepContainsKey (upstreamToolSchema refInAnyOfSchema) "$ref" = true := by
  constructor
  · rfl
  · rfl

/-- The schema of the spec scenario for the const transform:
`{type: "object", properties: {x: {const: "y"}}}`. -/
def constSchema : Json :=
  .obj [("type", .str "object"),
        ("properties", .obj [("x", .obj [("const", .str "y")])])]

/-- C4: the claim says the request path turns `const: X` into
`enum: [X]`.  The routes sanitizer runs first and simply deletes `const`
(it is on its forbidden-key list), so the upstream-client sanitizer,
whose `const`-to-`enum` transform implements the claim, never sees a
`const`: the schema sent upstream has neither `const` nor `enum`.
Applying the upstream-client sanitizer alone to the same schema does
produce the claimed `enum: ["y"]`, isolating the slip to the routes
pass. -/
theorem c4_const_deleted_before_enum_transform :
    upstreamToolSchema constSchema =
      .obj [("type", .str "object"), ("properties", .obj [("x", .obj [])])] ∧
    deepContainsKey (upstreamToolSchema constSchema) "const" = false ∧
    deepContainsKey (upstreamToolSchema constSchema) "enum" = false ∧
    agSanitizeSchema constSchema =
      .obj [("type", .str "object"),
            ("properties", .obj [("x", .obj [("enum", .arr [.str "y"])])])] := by
  refine ⟨rfl, rfl, rfl, rfl⟩

/-! ## Session recovery (api-server/src/session_recovery.rs)

`recover_session` runs `fix_missing_tool_results` and then
`fix_thinking_order`.  Each fix returns the input unchanged when it finds
nothing to fix, so `recover_session` is exactly the composition of the
two passes on the message list. -/

/-- `msg.get("role").and_then(as_str) == Some("assistant")`. -/
def isAssistant (m : Json) : Bool :=
  m.getStr "role" == some "assistant"

/-- `block.get("type").and_then(as_str) == Some("tool_use")`. -/
def isToolUseBlock (b : Json) : Bool :=
  b.getStr "type" == some "tool_use"

/-- `block.get("type").and_then(as_str) == Some("tool_result")`. -/
def isToolResultBlock (b : Json) : Bool :=
  b.getStr "type" == some "tool_result"

/-- The lookahead check of `fix_missing_tool_results` (lines 107-129): the
next message, if any, is a `user` message whose content array contains
SOME `tool_result` block.  Note that no `tool_use_id` is compared. -/
def nextIsToolResult : Option Json → Bool
  | none => false
  | some n =>
    n.getStr "role" == some "user" &&
    (match n.getArr "content" with
     | some blocks => blocks.any isToolResultBlock
     | none => false)

/-- An apostrophe, kept out of string literals. -/
def apos : String := String.singleton (Char.ofNat 39)

/-- The synthetic tool-result text of session_recovery.rs lines 151-155. -/
def synthText (toolName : String) : String :=
  "Tool " ++ apos ++ toolName ++ apos ++
  " was not executed. The previous operation was interrupted. " ++
  "Please continue with the available information or ask the user to retry."

/-- The synthetic user message injected for an unfilled `tool_use`. -/
def syntheticToolResult (toolId toolName : String) : Json :=
  .obj [("role", .str "user"),
        ("content", .arr [.obj [("type", .str "tool_result"),
                                ("tool_use_id", .str toolId),
                                ("content", .str (synthText toolName))]])]

/-- One synthetic message per `tool_use` block carrying a string `id` and
a string `name` (lines 140-171). -/
def mkSynth (b : Json) : Option Json :=
  match b.getStr "id", b.getStr "name" with
  | some toolId, some toolName => some (syntheticToolResult toolId toolName)
  | _, _ => none

/-- The messages `fix_missing_tool_results` pushes right after a message
`m` whose successor is `next?`: nothing unless `m` is an assistant message
whose content array holds a `tool_use` block and the successor check
fails; otherwise one synthetic per valid `tool_use` block. -/
def synthFor (m : Json) (next? : Option Json) : List Json :=
  if isAssistant m then
    match m.getArr "content" with
    | some blocks =>
      if blocks.any isToolUseBlock && !(nextIsToolResult next?) then
        (blocks.filter isToolUseBlock).filterMap mkSynth
      else []
    | none => []
  else []

/-- `fix_missing_tool_results`: walk the list, emitting each message
followed by its synthetic insertions; the lookahead is the next original
message. -/
def fixMissingToolResults : List Json → List Json
  | [] => []
  | m :: rest => m :: (synthFor m rest.head? ++ fixMissingToolResults rest)

/-- The block filter of `fix_thinking_order` (lines 208-241): a
`thinking`-typed block is dropped when it lacks a `signature` or lacks
both `thinking` and `text`; every other block is kept. -/
def keepBlock (b : Json) : Bool :=
  !(b.getStr "type" == some "thinking" &&
    (!(b.get "signature").isSome ||
     !((b.get "thinking").isSome || (b.get "text").isSome)))

/-- `Map::insert` on a message object: replace the first binding of the
key in place, or append it when absent. -/
def replaceField : List (String × Json) → String → Json → List (String × Json)
  | [], key, v => [(key, v)]
  | (k, w) :: rest, key, v =>
    if k = key then (key, v) :: rest else (k, w) :: replaceField rest key v

/-- `obj.insert(key, v)` on a JSON value (no-op on non-objects, as
`as_object_mut` fails there). -/
def setField (m : Json) (key : String) (v : Json) : Json :=
  match m with
  | .obj fields => .obj (replaceField fields key v)
  | j => j

/-- Per-message body of `fix_thinking_order`: on an assistant message with
a content array, drop the corrupted thinking blocks; rewrite the content
field only when something was dropped. -/
def fixThinkMsg (m : Json) : Json :=
  if isAssistant m then
    match m.getArr "content" with
    | some blocks =>
      if (blocks.filter keepBlock).length = blocks.length then m
      else setField m "content" (.arr (blocks.filter keepBlock))
    | none => m
  else m

/-- `fix_thinking_order` processes every message independently. -/
def fixThinkingOrder (msgs : List Json) : List Json :=
  msgs.map fixThinkMsg

/-- `recover_session`: tool-result fix, then thinking-order fix. -/
def recoverSession (msgs : List Json) : List Json :=
  fixThinkingOrder (fixMissingToolResults msgs)

/-! ### Supporting lemmas about the two fixes -/

theorem synthFor_of_not_assistant {m : Json} (h : isAssistant m = false)
    (n : Option Json) : synthFor m n = [] := by
  simp [synthFor, h]

theorem synthFor_of_next_toolResult {n : Option Json}
    (h : nextIsToolResult n = true) (m : Json) : synthFor m n = [] := by
  unfold synthFor
  split
  · split
    · simp [h]
    · rfl
  · rfl

theorem synthFor_congr_next {n₁ n₂ : Option Json}
    (h : nextIsToolResult n₁ = nextIsToolResult n₂) (m : Json) :
    synthFor m n₁ = synthFor m n₂ := by
  unfold synthFor
  rw [h]

theorem head?_fixMissingToolResults (l : List Json) :
    (fixMissingToolResults l).head? = l.head? := by
  cases l <;> rfl

theorem isAssistant_syntheticToolResult (i nm : String) :
    isAssistant (syntheticToolResult i nm) = false := rfl

theorem nextIsToolResult_syntheticToolResult (i nm : String) :
    nextIsToolResult (some (syntheticToolResult i nm)) = true := rfl

theorem mem_synthFor_shape {x m : Json} {n : Option Json}
    (hx : x ∈ synthFor m n) : ∃ i nm, x = syntheticToolResult i nm := by
  unfold synthFor at hx
  split at hx
  · split at hx
    · split at hx
      · rcases List.mem_filterMap.mp hx with ⟨b, _, hb⟩
        unfold mkSynth at hb
        split at hb
        · exact ⟨_, _, (Option.some.inj hb).symm⟩
        · cases hb
      · cases hx
    · cases hx
  · cases hx

theorem isAssistant_of_mem_synthFor {x m : Json} {n : Option Json}
    (hx : x ∈ synthFor m n) : isAssistant x = false := by
  rcases mem_synthFor_shape hx with ⟨i, nm, rfl⟩
  exact isAssistant_syntheticToolResult i nm

theorem nextIsToolResult_of_mem_synthFor {x m : Json} {n : Option Json}
    (hx : x ∈ synthFor m n) : nextIsToolResult (some x) = true := by
  rcases mem_synthFor_shape hx with ⟨i, nm, rfl⟩
  exact nextIsToolResult_syntheticToolResult i nm

theorem fixMissingToolResults_append_non_assistant :
    ∀ (s t : List Json), (∀ x ∈ s, isAssistant x = false) →
      fixMissingToolResults (s ++ t) = s ++ fixMissingToolResults t
  | [], t, _ => rfl
  | x :: s, t, h => by
    have hx : isAssistant x = false := h x (List.mem_cons_self x s)
    have ih := fixMissingToolResults_append_non_assistant s t
      (fun y hy => h y (List.mem_cons_of_mem x hy))
    simp [fixMissingToolResults, synthFor_of_not_assistant hx, ih]

/-- One application of the tool-result fix reaches a fixed point. -/
theorem fixMissingToolResults_idem :
    ∀ l, fixMissingToolResults (fixMissingToolResults l) = fixMissingToolResults l
  | [] => rfl
  | m :: rest => by
    have ih := fixMissingToolResults_idem rest
    show fixMissingToolResults
        (m :: (synthFor m rest.head? ++ fixMissingToolResults rest)) =
      m :: (synthFor m rest.head? ++ fixMissingToolResults rest)
    cases hs : synthFor m rest.head? with
    | nil =>
      simp only [hs, List.nil_append]
      show m :: (synthFor m (fixMissingToolResults rest).head? ++
          fixMissingToolResults (fixMissingToolResults rest)) =
        m :: fixMissingToolResults rest
      rw [head?_fixMissingToolResults, hs, ih, List.nil_append]
    | cons x s =>
      have hxmem : x ∈ synthFor m rest.head? := by
        rw [hs]; exact List.mem_cons_self x s
      have hxnext := nextIsToolResult_of_mem_synthFor hxmem
      have husers : ∀ y ∈ x :: s, isAssistant y = false := by
        intro y hy
        exact isAssistant_of_mem_synthFor (by rw [hs]; exact hy)
      show m :: (synthFor m ((x :: s ++ fixMissingToolResults rest).head?) ++
          fixMissingToolResults (x :: s ++ fixMissingToolResults rest)) =
        m :: ((x :: s) ++ fixMissingToolResults rest)
      have happ := fixMissingToolResults_append_non_assistant (x :: s)
        (fixMissingToolResults rest) husers
      simp only [List.cons_append] at happ
      rw [List.cons_append, List.head?_cons,
        synthFor_of_next_toolResult hxnext, List.nil_append, happ, ih]

theorem lookupField_replaceField_self :
    ∀ (fields : List (String × Json)) (key : String) (v : Json),
      lookupField (replaceField fields key v) key = some v
  | [], key, v => by simp [replaceField, lookupField]
  | (k, w) :: rest, key, v => by
    by_cases hk : k = key
    · simp [replaceField, hk, lookupField]
    · simp [replaceField, hk, lookupField, lookupField_replaceField_self rest key v]

theorem lookupField_replaceField_ne :
    ∀ (fields : List (String × Json)) {key k' : String} (v : Json), k' ≠ key →
      lookupField (replaceField fields key v) k' = lookupField fields k'
  | [], key, k', v, h => by simp [replaceField, lookupField, Ne.symm h]
  | (k, w) :: rest, key, k', v, h => by
    by_cases hk : k = key
    · subst hk
      simp [replaceField, lookupField, h, Ne.symm h]
    · by_cases hk' : k = k'
      · simp [replaceField, hk, lookupField, hk', h]
      · simp [replaceField, hk, lookupField, hk',
          lookupField_replaceField_ne rest v h]

theorem get_setField_ne (m : Json) {key k' : String} (v : Json) (h : k' ≠ key) :
    (setField m key v).get k' = m.get k' := by
  cases m <;> simp [setField, Json.get]
  exact lookupField_replaceField_ne _ v h

theorem getStr_role_fixThinkMsg (m : Json) :
    (fixThinkMsg m).getStr "role" = m.getStr "role" := by
  unfold fixThinkMsg
  split
  · split
    · split
      · rfl
      · unfold Json.getStr
        rw [get_setField_ne m _ (by decide)]
    · rfl
  · rfl

theorem isAssistant_fixThinkMsg (m : Json) :
    isAssistant (fixThinkMsg m) = isAssistant m := by
  unfold isAssistant
  rw [getStr_role_fixThinkMsg]

theorem fixThinkMsg_of_not_assistant {m : Json} (h : isAssistant m = false) :
    fixThinkMsg m = m := by
  unfold fixThinkMsg
  rw [h]
  rfl

theorem nextIsToolResult_map_fixThinkMsg (n : Option Json) :
    nextIsToolResult (n.map fixThinkMsg) = nextIsToolResult n := by
  cases n with
  | none => rfl
  | some x =>
    by_cases hx : isAssistant x
    · have hrole : x.getStr "role" = some "assistant" := by
        have := hx
        unfold isAssistant at this
        exact of_decide_eq_true (by simpa using this)
      have hrole' : (fixThinkMsg x).getStr "role" = some "assistant" := by
        rw [getStr_role_fixThinkMsg, hrole]
      simp [nextIsToolResult, hrole, hrole']
    · rw [show Option.map fixThinkMsg (some x) = some (fixThinkMsg x) from rfl,
        fixThinkMsg_of_not_assistant (by simpa using hx)]

/-- A `tool_use` block is never dropped by the thinking fix. -/
theorem keepBlock_of_isToolUse {b : Json} (h : isToolUseBlock b = true) :
    keepBlock b = true := by
  unfold isToolUseBlock at h
  unfold keepBlock
  have : b.getStr "type" = some "tool_use" := by
    exact of_decide_eq_true (by simpa using h)
  rw [this]
  rfl

theorem any_filter_keepBlock (p : Json → Bool)
    (hp : ∀ b, p b = true → keepBlock b = true) :
    ∀ l : List Json, (l.filter keepBlock).any p = l.any p
  | [] => rfl
  | x :: rest => by
    by_cases hk : keepBlock x
    · simp [List.filter_cons, hk, List.any_cons, any_filter_keepBlock p hp rest]
    · have hpx : p x = false := by
        cases hpx : p x
        · rfl
        · exact absurd (hp x hpx) (by simpa using hk)
      simp [List.filter_cons, hk, List.any_cons, hpx,
        any_filter_keepBlock p hp rest]

theorem filter_isToolUse_filter_keepBlock :
    ∀ l : List Json,
      (l.filter keepBlock).filter isToolUseBlock = l.filter isToolUseBlock
  | [] => rfl
  | x :: rest => by
    by_cases ht : isToolUseBlock x
    · have hk : keepBlock x = true := keepBlock_of_isToolUse ht
      simp [List.filter_cons, hk, ht, filter_isToolUse_filter_keepBlock rest]
    · by_cases hk : keepBlock x
      · simp [List.filter_cons, hk, ht, filter_isToolUse_filter_keepBlock rest]
      · simp [List.filter_cons, hk, ht, filter_isToolUse_filter_keepBlock rest]

theorem obj_of_getStr {m : Json} {k s : String} (h : m.getStr k = some s) :
    ∃ fields, m = Json.obj fields := by
  cases m
  case obj fields => exact ⟨fields, rfl⟩
  all_goals simp [Json.getStr, Json.get] at h

theorem getStr_role_of_isAssistant {m : Json} (h : isAssistant m = true) :
    m.getStr "role" = some "assistant" := by
  have hb : (m.getStr "role" == some "assistant") = true := h
  exact eq_of_beq hb

theorem getArr_content_setField {fields : List (String × Json)} (xs : List Json) :
    (setField (Json.obj fields) "content" (Json.arr xs)).getArr "content" = some xs := by
  simp [setField, Json.getArr, Json.get, lookupField_replaceField_self]

/-- The thinking fix changes neither which messages count as
assistant-with-tool-use nor the synthetic messages the tool fix would
insert: thinking-block removal never touches `tool_use` blocks. -/
theorem synthFor_fixThinkMsg (m : Json) (n : Option Json) :
    synthFor (fixThinkMsg m) (n.map fixThinkMsg) = synthFor m n := by
  by_cases ha : isAssistant m
  · cases hc : m.getArr "content" with
    | none =>
      have hm : fixThinkMsg m = m := by
        simp [fixThinkMsg, ha, hc]
      rw [hm]
      simp [synthFor, ha, hc]
    | some blocks =>
      by_cases hlen : (blocks.filter keepBlock).length = blocks.length
      · have hm : fixThinkMsg m = m := by
          simp [fixThinkMsg, ha, hc, hlen]
        rw [hm]
        exact synthFor_congr_next (nextIsToolResult_map_fixThinkMsg n) m
      · rcases obj_of_getStr (getStr_role_of_isAssistant ha) with ⟨fields, rfl⟩
        have hm : fixThinkMsg (Json.obj fields) =
            setField (Json.obj fields) "content"
              (Json.arr (blocks.filter keepBlock)) := by
          simp [fixThinkMsg, ha, hc, hlen]
        have ha' : isAssistant (fixThinkMsg (Json.obj fields)) = true := by
          rw [isAssistant_fixThinkMsg]
          exact ha
        have hc' : (fixThinkMsg (Json.obj fields)).getArr "content" =
            some (blocks.filter keepBlock) := by
          rw [hm]
          exact getArr_content_setField _
        simp only [synthFor, ha, ha', hc, hc', if_true,
          any_filter_keepBlock isToolUseBlock (fun b hb => keepBlock_of_isToolUse hb),
          filter_isToolUse_filter_keepBlock,
          nextIsToolResult_map_fixThinkMsg]
  · have hfalse : isAssistant m = false := by simpa using ha
    rw [fixThinkMsg_of_not_assistant hfalse,
      synthFor_of_not_assistant hfalse, synthFor_of_not_assistant hfalse]

/-- The thinking fix reaches a fixed point after one application. -/
theorem fixThinkMsg_idem (m : Json) : fixThinkMsg (fixThinkMsg m) = fixThinkMsg m := by
  by_cases ha : isAssistant m
  · cases hc : m.getArr "content" with
    | none =>
      have hm : fixThinkMsg m = m := by
        simp [fixThinkMsg, ha, hc]
      rw [hm, hm]
    | some blocks =>
      by_cases hlen : (blocks.filter keepBlock).length = blocks.length
      · have hm : fixThinkMsg m = m := by
          simp [fixThinkMsg, ha, hc, hlen]
        rw [hm, hm]
      · rcases obj_of_getStr (getStr_role_of_isAssistant ha) with ⟨fields, rfl⟩
        have hm : fixThinkMsg (Json.obj fields) =
            setField (Json.obj fields) "content"
              (Json.arr (blocks.filter keepBlock)) := by
          simp [fixThinkMsg, ha, hc, hlen]
        have ha' : isAssistant (fixThinkMsg (Json.obj fields)) = true := by
          rw [isAssistant_fixThinkMsg]
          exact ha
        have hc' : (fixThinkMsg (Json.obj fields)).getArr "content" =
            some (blocks.filter keepBlock) := by
          rw [hm]
          exact getArr_content_setField _
        have hkept : (blocks.filter keepBlock).filter keepBlock =
            blocks.filter keepBlock :=
          List.filter_eq_self.mpr (fun b hb => List.of_mem_filter hb)
        rw [hm] at ha' hc'
        rw [hm]
        simp [fixThinkMsg, ha', hc', hkept]
  · have hfalse : isAssistant m = false := by simpa using ha
    rw [fixThinkMsg_of_not_assistant hfalse, fixThinkMsg_of_not_assistant hfalse]

theorem map_fixThinkMsg_synthFor (m : Json) (n : Option Json) :
    (synthFor m n).map fixThinkMsg = synthFor m n := by
  have h : ∀ x ∈ synthFor m n, fixThinkMsg x = id x := fun x hx =>
    fixThinkMsg_of_not_assistant (isAssistant_of_mem_synthFor hx)
  rw [List.map_congr_left h, List.map_id]

theorem head?_map_fixThinkMsg (l : List Json) :
    (l.map fixThinkMsg).head? = l.head?.map fixThinkMsg := by
  cases l <;> rfl

/-- The tool-result fix commutes with the thinking fix. -/
theorem fixMissingToolResults_map_fixThinkMsg :
    ∀ l, fixMissingToolResults (l.map fixThinkMsg) =
      (fixMissingToolResults l).map fixThinkMsg
  | [] => rfl
  | m :: rest => by
    have ih := fixMissingToolResults_map_fixThinkMsg rest
    show fixThinkMsg m ::
        (synthFor (fixThinkMsg m) ((rest.map fixThinkMsg).head?) ++
          fixMissingToolResults (rest.map fixThinkMsg)) =
      (m :: (synthFor m rest.head? ++ fixMissingToolResults rest)).map fixThinkMsg
    rw [head?_map_fixThinkMsg, synthFor_fixThinkMsg, ih, List.map_cons,
      List.map_append, map_fixThinkMsg_synthFor]

/-- C9: session repair is idempotent (`repair(repair(msgs)) = repair(msgs)`):
one pass of `recover_session` reaches a fixed point of both the
missing-tool-result fix and the thinking-order fix. -/
theorem c9_session_repair_idempotent (msgs : List Json) :
    recoverSession (recoverSession msgs) = recoverSession msgs := by
  unfold recoverSession fixThinkingOrder
  rw [fixMissingToolResults_map_fixThinkMsg, fixMissingToolResults_idem,
    List.map_map]
  exact List.map_congr_left (fun a _ => fixThinkMsg_idem a)

/-! ### C6: tool-result insertion -/

/-- An assistant message holding at least one `tool_use` block that has a
string `id` and a string `name` (the blocks for which the code can build
a synthetic result). -/
def hasValidToolUse (m : Json) : Bool :=
  isAssistant m &&
  (match m.getArr "content" with
   | some blocks => blocks.any (fun b =>
       isToolUseBlock b && (b.getStr "id").isSome && (b.getStr "name").isSome)
   | none => false)

/-- The shape guaranteed after the tool fix: every assistant message with
a valid `tool_use` block is immediately followed by a user message whose
content contains a `tool_result` block. -/
def toolUseFollowedOk : List Json → Bool
  | [] => true
  | m :: rest =>
    (!(hasValidToolUse m) || nextIsToolResult rest.head?) && toolUseFollowedOk rest

theorem hasValidToolUse_false_of_not_assistant {m : Json}
    (h : isAssistant m = false) : hasValidToolUse m = false := by
  simp [hasValidToolUse, h]

theorem toolUseFollowedOk_append_non_assistant :
    ∀ (s t : List Json), (∀ x ∈ s, isAssistant x = false) →
      toolUseFollowedOk (s ++ t) = toolUseFollowedOk t
  | [], t, _ => rfl
  | x :: s, t, h => by
    have hx := hasValidToolUse_false_of_not_assistant (h x (List.mem_cons_self x s))
    have ih := toolUseFollowedOk_append_non_assistant s t
      (fun y hy => h y (List.mem_cons_of_mem x hy))
    simp [toolUseFollowedOk, hx, ih]

/-- When the tool fix inserted nothing after a message that does need a
tool result, the reason must be that the next message already carries
one. -/
theorem nextIsToolResult_of_synthFor_nil {m : Json} {n : Option Json}
    (hv : hasValidToolUse m = true) (hs : synthFor m n = []) :
    nextIsToolResult n = true := by
  unfold hasValidToolUse at hv
  rcases Bool.and_eq_true_iff.mp hv with ⟨ha, hany⟩
  unfold synthFor at hs
  rw [if_pos ha] at hs
  cases hc : m.getArr "content" with
  | none => rw [hc] at hany; cases hany
  | some blocks =>
    simp only [hc] at hs hany
    rcases List.any_eq_true.mp hany with ⟨b, hb, hbv⟩
    rcases Bool.and_eq_true_iff.mp hbv with ⟨hbv', hnm⟩
    rcases Bool.and_eq_true_iff.mp hbv' with ⟨htu, hid⟩
    have hbany : blocks.any isToolUseBlock = true :=
      List.any_eq_true.mpr ⟨b, hb, htu⟩
    by_cases hnext : nextIsToolResult n = true
    · exact hnext
    · exfalso
      rw [Bool.not_eq_true] at hnext
      rw [hbany, hnext] at hs
      simp only [Bool.and_true, Bool.not_false, if_pos] at hs
      have hmem : b ∈ blocks.filter isToolUseBlock := List.mem_filter.mpr ⟨hb, htu⟩
      have : mkSynth b = none := List.filterMap_eq_nil_iff.mp hs b hmem
      unfold mkSynth at this
      rcases Option.isSome_iff_exists.mp hid with ⟨i, hi⟩
      rcases Option.isSome_iff_exists.mp hnm with ⟨nm, hn⟩
      rw [hi, hn] at this
      cases this

/-- The tool fix establishes the followed-by-tool-result shape. -/
theorem toolUseFollowedOk_fixMissingToolResults :
    ∀ l, toolUseFollowedOk (fixMissingToolResults l) = true
  | [] => rfl
  | m :: rest => by
    have ih := toolUseFollowedOk_fixMissingToolResults rest
    show toolUseFollowedOk
      (m :: (synthFor m rest.head? ++ fixMissingToolResults rest)) = true
    cases hs : synthFor m rest.head? with
    | nil =>
      have hfirst : (!(hasValidToolUse m) ||
          nextIsToolResult (fixMissingToolResults rest).head?) = true := by
        cases hv : hasValidToolUse m
        · rfl
        · rw [head?_fixMissingToolResults]
          rw [nextIsToolResult_of_synthFor_nil hv hs]
          rfl
      simp [toolUseFollowedOk, hfirst, ih]
    | cons x s =>
      have hxmem : x ∈ synthFor m rest.head? := by
        rw [hs]; exact List.mem_cons_self x s
      have hxnext := nextIsToolResult_of_mem_synthFor hxmem
      have husers : ∀ y ∈ x :: s, isAssistant y = false := by
        intro y hy
        exact isAssistant_of_mem_synthFor (by rw [hs]; exact hy)
      have hvx : hasValidToolUse x = false :=
        hasValidToolUse_false_of_not_assistant (husers x (List.mem_cons_self x s))
      have happ := toolUseFollowedOk_append_non_assistant s
        (fixMissingToolResults rest) (fun y hy => husers y (List.mem_cons_of_mem x hy))
      simp [toolUseFollowedOk, List.cons_append, hxnext, hvx, happ, ih]

theorem hasValidToolUse_fixThinkMsg (m : Json) :
    hasValidToolUse (fixThinkMsg m) = hasValidToolUse m := by
  by_cases ha : isAssistant m
  · cases hc : m.getArr "content" with
    | none =>
      have hm : fixThinkMsg m = m := by simp [fixThinkMsg, ha, hc]
      rw [hm]
    | some blocks =>
      by_cases hlen : (blocks.filter keepBlock).length = blocks.length
      · have hm : fixThinkMsg m = m := by simp [fixThinkMsg, ha, hc, hlen]
        rw [hm]
      · rcases obj_of_getStr (getStr_role_of_isAssistant ha) with ⟨fields, rfl⟩
        have hm : fixThinkMsg (Json.obj fields) =
            setField (Json.obj fields) "content"
              (Json.arr (blocks.filter keepBlock)) := by
          simp [fixThinkMsg, ha, hc, hlen]
        have ha' : isAssistant (fixThinkMsg (Json.obj fields)) = true := by
          rw [isAssistant_fixThinkMsg]; exact ha
        have hc' : (fixThinkMsg (Json.obj fields)).getArr "content" =
            some (blocks.filter keepBlock) := by
          rw [hm]; exact getArr_content_setField _
        simp only [hasValidToolUse, ha, ha', hc, hc']
        rw [any_filter_keepBlock
            (fun b => isToolUseBlock b && (b.getStr "id").isSome &&
              (b.getStr "name").isSome)
            (fun b hb => keepBlock_of_isToolUse
              (Bool.and_eq_true_iff.mp (Bool.and_eq_true_iff.mp hb).1).1)
            blocks]
  · have hfalse : isAssistant m = false := by simpa using ha
    rw [fixThinkMsg_of_not_assistant hfalse]

theorem toolUseFollowedOk_map_fixThinkMsg :
    ∀ l, toolUseFollowedOk (l.map fixThinkMsg) = toolUseFollowedOk l
  | [] => rfl
  | m :: rest => by
    have ih := toolUseFollowedOk_map_fixThinkMsg rest
    show ((!(hasValidToolUse (fixThinkMsg m)) ||
        nextIsToolResult ((rest.map fixThinkMsg)).head?) &&
        toolUseFollowedOk (rest.map fixThinkMsg)) = toolUseFollowedOk (m :: rest)
    rw [head?_map_fixThinkMsg, nextIsToolResult_map_fixThinkMsg,
      hasValidToolUse_fixThinkMsg, ih]
    rfl

/-- C6 (amended): session repair guarantees that in the repaired list,
every assistant message holding a `tool_use` block with string id and
name is immediately followed by a user message containing a `tool_result`
block — but the matching is by block presence only, never by
`tool_use_id`. -/
theorem c6_insertion_presence_based (msgs : List Json) :
    toolUseFollowedOk (recoverSession msgs) = true := by
  unfold recoverSession fixThinkingOrder
  rw [toolUseFollowedOk_map_fixThinkMsg]
  exact toolUseFollowedOk_fixMissingToolResults msgs

/-- The assistant message of the C6 counterexample: one `tool_use` block
with id `t1`. -/
def c6AssistantMsg : Json :=
  .obj [("role", .str "assistant"),
        ("content", .arr [.obj [("type", .str "tool_use"),
                                ("id", .str "t1"),
                                ("name", .str "read_file"),
                                ("input", .obj [])]])]

/-- The next user message: a `tool_result` whose `tool_use_id` does NOT
match `t1`. -/
def c6UserMsg : Json :=
  .obj [("role", .str "user"),
        ("content", .arr [.obj [("type", .str "tool_result"),
                                ("tool_use_id", .str "other_id"),
                                ("content", .str "ok")]])]

def c6Messages : List Json := [c6AssistantMsg, c6UserMsg]

/-- Whether some message carries a `tool_result` block with the given
`tool_use_id`. -/
def hasToolResultFor (msgs : List Json) (toolId : String) : Bool :=
  msgs.any fun m =>
    match m.getArr "content" with
    | some blocks => blocks.any (fun b =>
        isToolResultBlock b && b.getStr "tool_use_id" == some toolId)
    | none => false

/-- C6 (counterexample): the claim requires a synthetic user message for
the unmatched `tool_use` id `t1` (the only `tool_result` in the next
message has `tool_use_id` `other_id`).  The code checks only that the
next user message contains SOME `tool_result` block, so it inserts
nothing: repair returns the conversation unchanged and no `tool_result`
for `t1` exists anywhere in it. -/
theorem c6_counterexample :
    recoverSession c6Messages = c6Messages ∧
    hasToolResultFor (recoverSession c6Messages) "t1" = false := by
  exact ⟨rfl, rfl⟩

/-! ## Account pool (oauth/src/accounts.rs)

Time is integer seconds.  The network token refresh is abstracted by an
oracle `refreshFn : String → Option TokenPair` keyed by the refresh
token; the in-place token update and the `last_used_index` update of the
source are modelled by returning the updated `ManagerState`. -/

/-- Result of a token refresh (tokens.rs `TokenPair`, fields the pool
uses). -/
structure TokenPair where
  accessToken : String
  expiresAt : Int
  refreshToken : String
deriving DecidableEq

/-- A loaded account with runtime state. -/
structure Account where
  index : Nat
  email : String
  accessToken : String
  expiresAt : Int
  refreshToken : String
deriving DecidableEq

/-- `Account::needs_refresh`: now + 5 minutes ≥ expires_at. -/
def Account.needsRefresh (a : Account) (now : Int) : Bool :=
  a.expiresAt ≤ now + 300

/-- Model family for per-family rate-limit tracking. -/
inductive ModelFamily where
  | claude
  | gemini
deriving DecidableEq

/-- `ModelFamily::from_model_id`: lowercase id containing "claude" is
Claude, everything else Gemini. -/
def ModelFamily.fromModelId (modelId : String) : ModelFamily :=
  if containsSubstr (lowerStr modelId) "claude" then .claude else .gemini

/-- Rate-limit entry (`until` is named `untilTime` here). -/
structure RateLimitInfo where
  untilTime : Int
  consecutiveCount : Nat
deriving DecidableEq

/-- Per-family entries of one account. -/
structure AccountRateLimits where
  claude : Option RateLimitInfo
  gemini : Option RateLimitInfo
deriving DecidableEq

def AccountRateLimits.get (l : AccountRateLimits) : ModelFamily → Option RateLimitInfo
  | .claude => l.claude
  | .gemini => l.gemini

def AccountRateLimits.set (l : AccountRateLimits) :
    ModelFamily → RateLimitInfo → AccountRateLimits
  | .claude, i => { l with claude := some i }
  | .gemini, i => { l with gemini := some i }

def AccountRateLimits.clear (l : AccountRateLimits) : ModelFamily → AccountRateLimits
  | .claude => { l with claude := none }
  | .gemini => { l with gemini := none }

/-- `is_rate_limited`: an entry blocks while `now < until`. -/
def AccountRateLimits.isRateLimited
    (l : AccountRateLimits) (fam : ModelFamily) (now : Int) : Bool :=
  match l.get fam with
  | some info => now < info.untilTime
  | none => false

/-- The pool state: accounts, the rate-limit ledger (`HashMap<usize, …>`
as an association list) and the round-robin cursor. -/
structure ManagerState where
  accounts : List Account
  rateLimits : List (Nat × AccountRateLimits)
  lastUsedIndex : Nat
deriving DecidableEq

def lookupRL : List (Nat × AccountRateLimits) → Nat → Option AccountRateLimits
  | [], _ => none
  | (i, l) :: rest, idx => if i = idx then some l else lookupRL rest idx

def setRL : List (Nat × AccountRateLimits) → Nat → AccountRateLimits →
    List (Nat × AccountRateLimits)
  | [], idx, v => [(idx, v)]
  | (i, l) :: rest, idx, v =>
    if i = idx then (idx, v) :: rest else (i, l) :: setRL rest idx v

def removeRL : List (Nat × AccountRateLimits) → Nat → List (Nat × AccountRateLimits)
  | [], _ => []
  | (i, l) :: rest, idx =>
    if i = idx then removeRL rest idx else (i, l) :: removeRL rest idx

/-- In-place token refresh applied to an account (accounts.rs lines
212-217; the conditional refresh-token swap assigns the same value either
way). -/
def applyRefresh (a : Account) (tp : TokenPair) : Account :=
  { a with
    accessToken := tp.accessToken
    expiresAt := tp.expiresAt
    refreshToken := tp.refreshToken }

/-- Attempt to use the account at `idx`: refresh its token when needed;
`none` when the refresh fails (the scan then continues). -/
def tryAccount (refreshFn : String → Option TokenPair) (now : Int)
    (st : ManagerState) (idx : Nat) : Option (Account × ManagerState) :=
  match st.accounts.get? idx with
  | none => none
  | some a =>
    if a.needsRefresh now then
      match refreshFn a.refreshToken with
      | some tp =>
        let a' := applyRefresh a tp
        some (a', { st with accounts := st.accounts.set idx a', lastUsedIndex := idx })
      | none => none
    else
      some (a, { st with lastUsedIndex := idx })

/-- The round-robin scan common to the three selection functions: walk
the offsets, skip an account whose ledger entry satisfies `blocked`, and
try the first remaining candidate. -/
def scanAccounts (refreshFn : String → Option TokenPair) (now : Int)
    (blocked : AccountRateLimits → Bool) (st : ManagerState) :
    List Nat → Option Account × ManagerState
  | [] => (none, st)
  | offset :: rest =>
    let idx := (st.lastUsedIndex + offset + 1) % st.accounts.length
    let isBlocked :=
      match lookupRL st.rateLimits idx with
      | some limits => blocked limits
      | none => false
    if isBlocked then scanAccounts refreshFn now blocked st rest
    else
      match tryAccount refreshFn now st idx with
      | some (a, st') => (some a, st')
      | none => scanAccounts refreshFn now blocked st rest

/-- `get_available_account_for_model` (accounts.rs lines 179-234):
family-aware selection, skipping only accounts limited for the model id's
own family. -/
def getAvailableAccountForModel (refreshFn : String → Option TokenPair)
    (now : Int) (st : ManagerState) (modelId : String) :
    Option Account × ManagerState :=
  let fam := ModelFamily.fromModelId modelId
  if st.accounts.isEmpty then (none, st)
  else scanAccounts refreshFn now (fun l => l.isRateLimited fam now) st
    (List.range st.accounts.length)

/-- `get_available_account` (accounts.rs lines 367-419): family-blind
selection, skipping an account limited for EITHER family.  This is the
selection the request pipeline in routes.rs actually calls. -/
def getAvailableAccount (refreshFn : String → Option TokenPair)
    (now : Int) (st : ManagerState) : Option Account × ManagerState :=
  if st.accounts.isEmpty then (none, st)
  else scanAccounts refreshFn now
    (fun l => l.isRateLimited .claude now || l.isRateLimited .gemini now) st
    (List.range st.accounts.length)

/-- `get_available_account_ignoring_rate_limit` (accounts.rs lines
422-463): never consults the ledger. -/
def getAvailableAccountIgnoringRateLimit (refreshFn : String → Option TokenPair)
    (now : Int) (st : ManagerState) : Option Account × ManagerState :=
  if st.accounts.isEmpty then (none, st)
  else scanAccounts refreshFn now (fun _ => false) st
    (List.range st.accounts.length)

/-- `mark_rate_limited` (accounts.rs lines 469-487). -/
def markRateLimited (st : ManagerState) (idx : Nat) (fam : ModelFamily)
    (untilTime : Int) : ManagerState :=
  let limits := (lookupRL st.rateLimits idx).getD ⟨none, none⟩
  let current := ((limits.get fam).map (·.consecutiveCount)).getD 0
  { st with rateLimits := setRL st.rateLimits idx (limits.set fam ⟨untilTime, current + 1⟩) }

/-- `clear_rate_limit` (accounts.rs lines 490-499): remove the family
entry; drop the account's ledger row when both families are clear. -/
def clearRateLimit (st : ManagerState) (idx : Nat) (fam : ModelFamily) :
    ManagerState :=
  match lookupRL st.rateLimits idx with
  | none => st
  | some limits =>
    let cleared := limits.clear fam
    if cleared.claude = none ∧ cleared.gemini = none then
      { st with rateLimits := removeRL st.rateLimits idx }
    else
      { st with rateLimits := setRL st.rateLimits idx cleared }

/-- `get_min_wait_time_for_model` (accounts.rs lines 502-528), in
seconds. -/
def getMinWaitTimeForModel (st : ManagerState) (modelId : String)
    (now : Int) : Option Int :=
  let fam := ModelFamily.fromModelId modelId
  let anyAvailable := st.accounts.any fun a =>
    match lookupRL st.rateLimits a.index with
    | some limits => !(limits.isRateLimited fam now)
    | none => true
  if anyAvailable then none
  else
    (((st.rateLimits.filterMap (fun p => p.2.get fam)).filter
        (fun info => now < info.untilTime)).map
      (fun info => info.untilTime - now)).min?

/-- Projection of the ledger to one (account, family) slot. -/
def familyEntry (st : ManagerState) (idx : Nat) (fam : ModelFamily) :
    Option RateLimitInfo :=
  match lookupRL st.rateLimits idx with
  | some limits => limits.get fam
  | none => none

/-- A refresh oracle for concrete runs where no token is stale. -/
def noRefresh : String → Option TokenPair := fun _ => none

/-- The single account of the C1 run: fresh token, far-future expiry. -/
def c1Account : Account :=
  { index := 0, email := "a@example.com", accessToken := "tok",
    expiresAt := 1000000, refreshToken := "refresh" }

/-- One account, marked rate-limited for Claude until t = 1000 (now = 0),
Gemini clear. -/
def c1State : ManagerState :=
  { accounts := [c1Account],
    rateLimits := [(0, { claude := some ⟨1000, 1⟩, gemini := none })],
    lastUsedIndex := 0 }

/-- C1: the claim requires the account-selection operation used by the
request pipeline to still return the account for a Gemini-family model
after a Claude mark.  The pipeline (routes.rs lines 284, 453, 676, 1009)
calls the family-blind `get_available_account`, which skips any account
limited for either family: with the only account marked for Claude it
returns none even for a Gemini request (the request then falls through to
a 401, since the family-aware wait estimate sees an available account).
The family-aware `get_available_account_for_model` — which the pipeline
never calls — behaves exactly as the claim demands on the same state:
the account for Gemini, none for Claude before t. -/
theorem c1_pipeline_ignores_family :
    (getAvailableAccount noRefresh 0 c1State).fst = none ∧
    (getAvailableAccountForModel noRefresh 0 c1State "gemini-3-flash").fst =
      some c1Account ∧
    (getAvailableAccountForModel noRefresh 0 c1State "claude-sonnet-4-5").fst =
      none ∧
    getMinWaitTimeForModel c1State "gemini-3-flash" 0 = none := by
  refine ⟨rfl, rfl, rfl, rfl⟩

/-! ## Models (browser-automator/src/antigravity.rs) -/

/-- The closed model enumeration. -/
inductive AntigravityModel where
  | gemini3Pro
  | gemini3Flash
  | claudeSonnet45
  | claudeSonnet45Thinking
  | claudeOpus45Thinking
deriving DecidableEq

/-- `AntigravityModel::api_id`. -/
def AntigravityModel.apiId : AntigravityModel → String
  | .gemini3Pro => "gemini-3-pro"
  | .gemini3Flash => "gemini-3-flash"
  | .claudeSonnet45 => "claude-sonnet-4-5"
  | .claudeSonnet45Thinking => "claude-sonnet-4-5-thinking"
  | .claudeOpus45Thinking => "claude-opus-4-5-thinking"

/-- `AntigravityModel::is_claude`. -/
def AntigravityModel.isClaude : AntigravityModel → Bool
  | .claudeSonnet45 | .claudeSonnet45Thinking | .claudeOpus45Thinking => true
  | _ => false

/-- Modelled from the spec: routes.rs line 630 calls
`AntigravityModel::is_gemini`, whose definition is not among the provided
sources; §4.4/§4.6 apply the dual-quota strategy to Gemini models only,
i.e. the two Gemini variants of the enumeration. -/
def AntigravityModel.isGemini : AntigravityModel → Bool
  | .gemini3Pro | .gemini3Flash => true
  | _ => false

/-- `map_anthropic_to_antigravity` (routes.rs lines 796-820); the
substring tests are case-sensitive in the source. -/
def mapAnthropicToAntigravity (modelId : String) : AntigravityModel :=
  if containsSubstr modelId "opus" then .claudeOpus45Thinking
  else if containsSubstr modelId "sonnet" then
    (if containsSubstr modelId "think" then .claudeSonnet45Thinking
     else .claudeSonnet45)
  else if containsSubstr modelId "haiku" then .gemini3Flash
  else if containsSubstr modelId "gemini" then
    (if containsSubstr modelId "flash" then .gemini3Flash else .gemini3Pro)
  else .claudeSonnet45

/-- `get_spoof_model` (routes.rs lines 823-829). -/
def getSpoofModel : AntigravityModel → Option AntigravityModel
  | .claudeOpus45Thinking => some .gemini3Pro
  | .claudeSonnet45Thinking | .claudeSonnet45 => some .gemini3Flash
  | _ => none

/-! ## Error classification in the handlers (routes.rs) -/

/-- `is_recoverable_error` (session_recovery.rs lines 264-277). -/
def isRecoverableError (e : String) : Bool :=
  let lower := lowerStr e
  ["tool_use without tool_result", "tool result missing",
   "expected thinking but found text", "thinking block out of order",
   "invalid thinking signature"].any (fun pat => containsSubstr lower pat)

/-- The fallback trigger of routes.rs lines 581-586: a rate-limit or
capacity prefix, or any of the status substrings. -/
def isRateOrCapacity (e : String) : Bool :=
  startsWithStr e "RATE_LIMITED:" || startsWithStr e "CAPACITY_ERROR:" ||
  containsSubstr e "429" || containsSubstr e "503" || containsSubstr e "529"

/-- Digits of an ASCII decimal string, as `str::parse::<u64>` accepts it
(nonempty, digits only). -/
def parseDigits : List Char → Option Nat → Option Nat
  | [], acc => acc
  | c :: rest, acc =>
    if 48 ≤ c.toNat && c.toNat ≤ 57 then
      parseDigits rest (some ((acc.getD 0) * 10 + (c.toNat - 48)))
    else none

/-- Split a character list at each colon (full split; only index 1 is
consumed, where `splitn(3, _)` and a full split agree). -/
def splitColon : List Char → List (List Char)
  | [] => [[]]
  | c :: rest =>
    let parts := splitColon rest
    if c = Char.ofNat 58 then [] :: parts
    else match parts with
      | p :: ps => (c :: p) :: ps
      | [] => [[c]]

/-- `error_str.splitn(3, ':')` followed by `parts.get(1); parse::<u64>();
unwrap_or(60)` (routes.rs lines 590-591). -/
def retrySeconds (e : String) : Nat :=
  (((splitColon e.data).get? 1).bind (fun p => parseDigits p none)).getD 60

/-- The stored backoff: capacity errors are floored at 45 seconds
(routes.rs lines 594-600). -/
def effectiveSeconds (e : String) : Nat :=
  if startsWithStr e "CAPACITY_ERROR:" then max (retrySeconds e) 45
  else retrySeconds e

/-! ## Non-streaming `/v1/messages` handler (routes.rs lines 421-793)

The account-acquisition loop body and the post-acquisition control flow
are embedded as pure functions.  Upstream calls are abstracted by
oracles (`StrategyCalls`): the embedding performs exactly the
account-manager operations the handler performs, in the handler's
order. -/

/-- The relevant parts of an axum response: status, extra headers (the
handler sets none beyond the JSON content type) and the Anthropic error
body. -/
structure HttpResponse where
  status : Nat
  headers : List (String × String)
  errorType : String
  message : String
deriving DecidableEq

/-- The 429 body of routes.rs lines 477-483: the wait lands in the
message text only; no header is added. -/
def rateLimit429 (waitSecs : Int) : HttpResponse :=
  { status := 429, headers := [], errorType := "rate_limit_error",
    message := "Rate limited. Retry after " ++ Nat.repr waitSecs.toNat ++ " seconds" }

/-- The 401 body of routes.rs lines 492-498. -/
def auth401 : HttpResponse :=
  { status := 401, headers := [], errorType := "authentication_error",
    message := "No Google accounts configured. Run AetherBridge TUI and press [L] to login." }

/-- Result of one pass of the acquisition loop body (routes.rs lines
452-501). -/
inductive AcquireOutcome where
  | acquired (account : Account) (model : AntigravityModel) (viaS0 : Bool)
      (st : ManagerState)
  | sleepRetry (waitSecs : Int)
  | respond (resp : HttpResponse)
deriving DecidableEq

/-- One iteration of the account-acquisition loop of the non-streaming
handler: family-blind lease; on failure Strategy 0 (pre-emptive spoof,
ignoring limits); then the wait-time check — immediate 429 above 600
seconds, sleep-and-retry otherwise, 401 when no wait is pending. -/
def acquireStep (refreshFn : String → Option TokenPair) (now : Int)
    (st : ManagerState) (model : AntigravityModel) (requestedModel : String) :
    AcquireOutcome :=
  match getAvailableAccount refreshFn now st with
  | (some a, st') => .acquired a model false st'
  | (none, _) =>
    let waitCheck : AcquireOutcome :=
      match getMinWaitTimeForModel st requestedModel now with
      | some w => if w > 600 then .respond (rateLimit429 w) else .sleepRetry w
      | none => .respond auth401
    match getSpoofModel model with
    | some spoof =>
      match getAvailableAccountIgnoringRateLimit refreshFn now st with
      | (some a, st') => .acquired a spoof true st'
      | (none, _) => waitCheck
    | none => waitCheck

/-- Outcomes of the upstream calls a single request can make, in the
order the handler may issue them. -/
structure StrategyCalls (α : Type) where
  primary : Except String α
  recoveryRetry : Except String α
  s1 : Except String α
  s15ClientOk : Bool
  s15 : Except String α
  s2ClientOk : Bool
  s2 : Except String α

/-- What a handler run did to the pool, plus its result. -/
structure HandlerTrace (α : Type) where
  result : Except String α
  finalState : ManagerState
  usedFallback : Bool
  clearedPrimary : Bool
  markedPrimary : Option (Nat × ModelFamily × Int)

/-- Strategy 2 (routes.rs lines 673-703): rotate to another account under
normal rules; when none is available or the client cannot be built, the
previous error stands. -/
def s2Run (refreshFn : String → Option TokenPair) (now : Int)
    (st1 : ManagerState) (calls : StrategyCalls α)
    (current : Except String α) : Except String α × ManagerState :=
  match getAvailableAccount refreshFn now st1 with
  | (some _, st2) =>
    if calls.s2ClientOk then
      match calls.s2 with
      | .ok r => (.ok r, st2)
      | .error e3 => (.error e3, st2)
    else (current, st2)
  | (none, _) => (current, st1)

/-- Strategy 1.5 (routes.rs lines 627-671): dual quota, Gemini models
only; falls through to Strategy 2. -/
def s15Run (refreshFn : String → Option TokenPair) (now : Int)
    (st1 : ManagerState) (model : AntigravityModel) (calls : StrategyCalls α)
    (current : Except String α) : Except String α × ManagerState :=
  if model.isGemini then
    if calls.s15ClientOk then
      match calls.s15 with
      | .ok r => (.ok r, st1)
      | .error _ => s2Run refreshFn now st1 calls current
    else s2Run refreshFn now st1 calls current
  else s2Run refreshFn now st1 calls current

/-- Strategies S1 → S1.5 → S2 (routes.rs lines 608-704), entered after
the current account has been marked; returns the final result and the
pool state. -/
def fallbackAttempts (refreshFn : String → Option TokenPair) (now : Int)
    (st1 : ManagerState) (model : AntigravityModel) (origErr : String)
    (calls : StrategyCalls α) : Except String α × ManagerState :=
  match getSpoofModel model with
  | some _ =>
    match calls.s1 with
    | .ok r => (.ok r, st1)
    | .error _ => s15Run refreshFn now st1 model calls (.error origErr)
  | none => s15Run refreshFn now st1 model calls (.error origErr)

/-- The rate-limit/capacity branch (routes.rs lines 581-704 together with
the final match at 712-781): mark the current account for the current
model's family, set `used_fallback`, run the strategies, and on a final
error that still carries a rate/capacity prefix mark again. -/
def rateBranchTrace (refreshFn : String → Option TokenPair) (now : Int)
    (st : ManagerState) (account : Account) (model : AntigravityModel)
    (e : String) (calls : StrategyCalls α) : HandlerTrace α :=
  let fam := ModelFamily.fromModelId model.apiId
  let untilT : Int := now + (effectiveSeconds e : Int)
  let st1 := markRateLimited st account.index fam untilT
  let fr := fallbackAttempts refreshFn now st1 model e calls
  match fr.fst with
  | .ok r =>
    { result := .ok r, finalState := fr.snd, usedFallback := true,
      clearedPrimary := false, markedPrimary := some (account.index, fam, untilT) }
  | .error e' =>
    if startsWithStr e' "RATE_LIMITED:" || startsWithStr e' "CAPACITY_ERROR:" then
      { result := .error e',
        finalState := markRateLimited fr.snd account.index fam (now + (effectiveSeconds e' : Int)),
        usedFallback := true, clearedPrimary := false,
        markedPrimary := some (account.index, fam, untilT) }
    else
      { result := .error e', finalState := fr.snd, usedFallback := true,
        clearedPrimary := false, markedPrimary := some (account.index, fam, untilT) }

/-- The post-acquisition body of the non-streaming handler (routes.rs
lines 552-793): primary call, session-repair retry, fallback strategies,
then the clear-on-success (only when no fallback was used) or the final
error mapping with its re-mark. -/
def messagesAfterAcquire (refreshFn : String → Option TokenPair) (now : Int)
    (st : ManagerState) (account : Account) (model : AntigravityModel)
    (calls : StrategyCalls α) : HandlerTrace α :=
  let fam := ModelFamily.fromModelId model.apiId
  match calls.primary with
  | .ok r =>
    { result := .ok r, finalState := clearRateLimit st account.index fam,
      usedFallback := false, clearedPrimary := true, markedPrimary := none }
  | .error e =>
    if isRecoverableError e then
      match calls.recoveryRetry with
      | .ok r =>
        { result := .ok r, finalState := clearRateLimit st account.index fam,
          usedFallback := false, clearedPrimary := true, markedPrimary := none }
      | .error e2 =>
        if startsWithStr e2 "RATE_LIMITED:" || startsWithStr e2 "CAPACITY_ERROR:" then
          { result := .error e2,
            finalState := markRateLimited st account.index fam (now + (effectiveSeconds e2 : Int)),
            usedFallback := false, clearedPrimary := false, markedPrimary := none }
        else
          { result := .error e2, finalState := st, usedFallback := false,
            clearedPrimary := false, markedPrimary := none }
    else if isRateOrCapacity e then
      rateBranchTrace refreshFn now st account model e calls
    else
      { result := .error e, finalState := st, usedFallback := false,
        clearedPrimary := false, markedPrimary := none }

/-! ### C7: wait-cap abort -/

/-- One account, marked for the Gemini family until now + 700 s. -/
def c7State : ManagerState :=
  { accounts := [c1Account],
    rateLimits := [(0, { claude := none, gemini := some ⟨700, 1⟩ })],
    lastUsedIndex := 0 }

/-- C7 (counterexample): on the wait-cap input of the spec scenario (only
account limited for the target family until now + 700 s) the handler
aborts with 429 at once — but the response carries NO `Retry-After`
header: the wait appears only in the JSON error message.  The claim
requires a `Retry-After` header reflecting the wait. -/
theorem c7_counterexample :
    acquireStep noRefresh 0 c7State .gemini3Flash "gemini-3-flash" =
      .respond { status := 429, headers := [], errorType := "rate_limit_error",
                 message := "Rate limited. Retry after 700 seconds" } := by
  rfl

/-- C7 (amended): whenever the family-blind lease finds no account, no
pre-emptive spoof exists for the model, and the family-aware minimum wait
exceeds 600 seconds, the handler neither sleeps nor leases: it
immediately returns HTTP 429 with the wait reported in the JSON error
message and with no extra header (in particular no `Retry-After`). -/
theorem c7_wait_cap_immediate_429 (refreshFn : String → Option TokenPair)
    (now : Int) (st st₀ : ManagerState) (model : AntigravityModel)
    (requested : String) (w : Int)
    (hnone : getAvailableAccount refreshFn now st = (none, st₀))
    (hspoof : getSpoofModel model = none)
    (hwait : getMinWaitTimeForModel st requested now = some w)
    (hcap : w > 600) :
    acquireStep refreshFn now st model requested = .respond (rateLimit429 w) := by
  unfold acquireStep
  rw [hnone, hspoof, hwait]
  simp [hcap]

/-- C7 witness: the amended theorem applied at the concrete wait-cap
state. -/
theorem c7_wait_cap_witness :
    acquireStep noRefresh 0 c7State .gemini3Flash "gemini-3-flash" =
      .respond (rateLimit429 700) :=
  c7_wait_cap_immediate_429 noRefresh 0 c7State c7State .gemini3Flash
    "gemini-3-flash" 700 rfl rfl rfl (by decide)

/-! ### C5: no clear on fallback success -/

theorem tryAccount_rateLimits {refreshFn : String → Option TokenPair}
    {now : Int} {st : ManagerState} {idx : Nat} {a : Account}
    {st' : ManagerState} (h : tryAccount refreshFn now st idx = some (a, st')) :
    st'.rateLimits = st.rateLimits := by
  unfold tryAccount at h
  split at h
  · cases h
  · split at h
    · split at h
      · cases h
        rfl
      · cases h
    · cases h
      rfl

theorem scanAccounts_rateLimits (refreshFn : String → Option TokenPair)
    (now : Int) (blocked : AccountRateLimits → Bool) :
    ∀ (offsets : List Nat) (st : ManagerState),
      (scanAccounts refreshFn now blocked st offsets).snd.rateLimits = st.rateLimits
  | [], _ => rfl
  | offset :: rest, st => by
    unfold scanAccounts
    dsimp only
    split
    · exact scanAccounts_rateLimits refreshFn now blocked rest st
    · split
      · next a st' h => exact tryAccount_rateLimits h
      · exact scanAccounts_rateLimits refreshFn now blocked rest st

theorem getAvailableAccount_rateLimits (refreshFn : String → Option TokenPair)
    (now : Int) (st : ManagerState) :
    (getAvailableAccount refreshFn now st).snd.rateLimits = st.rateLimits := by
  unfold getAvailableAccount
  split
  · rfl
  · exact scanAccounts_rateLimits refreshFn now _ _ st

theorem s2Run_rateLimits (refreshFn : String → Option TokenPair) (now : Int)
    (st1 : ManagerState) (calls : StrategyCalls α) (current : Except String α) :
    (s2Run refreshFn now st1 calls current).snd.rateLimits = st1.rateLimits := by
  unfold s2Run
  split
  · next a st2 h =>
    have h2 : st2.rateLimits = st1.rateLimits := by
      have := getAvailableAccount_rateLimits refreshFn now st1
      rw [h] at this
      exact this
    split
    · split <;> exact h2
    · exact h2
  · rfl

theorem s15Run_rateLimits (refreshFn : String → Option TokenPair) (now : Int)
    (st1 : ManagerState) (model : AntigravityModel) (calls : StrategyCalls α)
    (current : Except String α) :
    (s15Run refreshFn now st1 model calls current).snd.rateLimits = st1.rateLimits := by
  unfold s15Run
  split
  · split
    · split
      · rfl
      · exact s2Run_rateLimits refreshFn now st1 calls current
    · exact s2Run_rateLimits refreshFn now st1 calls current
  · exact s2Run_rateLimits refreshFn now st1 calls current

theorem fallbackAttempts_rateLimits (refreshFn : String → Option TokenPair)
    (now : Int) (st1 : ManagerState) (model : AntigravityModel)
    (origErr : String) (calls : StrategyCalls α) :
    (fallbackAttempts refreshFn now st1 model origErr calls).snd.rateLimits =
      st1.rateLimits := by
  unfold fallbackAttempts
  split
  · split
    · rfl
    · exact s15Run_rateLimits refreshFn now st1 model calls _
  · exact s15Run_rateLimits refreshFn now st1 model calls _

theorem lookupRL_setRL_self :
    ∀ (rl : List (Nat × AccountRateLimits)) (idx : Nat) (v : AccountRateLimits),
      lookupRL (setRL rl idx v) idx = some v
  | [], idx, v => by simp [setRL, lookupRL]
  | (i, l) :: rest, idx, v => by
    by_cases hi : i = idx
    · simp [setRL, hi, lookupRL]
    · simp [setRL, hi, lookupRL, lookupRL_setRL_self rest idx v]

theorem AccountRateLimits.get_set_self (l : AccountRateLimits)
    (fam : ModelFamily) (i : RateLimitInfo) : (l.set fam i).get fam = some i := by
  cases fam <;> rfl

/-- Whatever consecutive count applies, a fresh mark leaves the slot
holding exactly the recorded deadline. -/
theorem familyEntry_markRateLimited_self (st : ManagerState) (idx : Nat)
    (fam : ModelFamily) (u : Int) :
    ((familyEntry (markRateLimited st idx fam u) idx fam).map
      (fun i => i.untilTime)) = some u := by
  unfold markRateLimited familyEntry
  simp [lookupRL_setRL_self, AccountRateLimits.get_set_self]

theorem familyEntry_eq_of_rateLimits {st st' : ManagerState}
    (h : st'.rateLimits = st.rateLimits) (idx : Nat) (fam : ModelFamily) :
    familyEntry st' idx fam = familyEntry st idx fam := by
  unfold familyEntry
  rw [h]

theorem lookupRL_setRL_ne :
    ∀ (rl : List (Nat × AccountRateLimits)) {idx j : Nat} (v : AccountRateLimits),
      j ≠ idx → lookupRL (setRL rl idx v) j = lookupRL rl j
  | [], idx, j, v, h => by simp [setRL, lookupRL, Ne.symm h]
  | (i, l) :: rest, idx, j, v, h => by
    by_cases hi : i = idx
    · subst hi
      simp [setRL, lookupRL, h, Ne.symm h]
    · by_cases hj : i = j
      · simp [setRL, hi, lookupRL, hj, h]
      · simp [setRL, hi, lookupRL, hj, lookupRL_setRL_ne rest v h]

theorem lookupRL_removeRL_self :
    ∀ (rl : List (Nat × AccountRateLimits)) (idx : Nat),
      lookupRL (removeRL rl idx) idx = none
  | [], _ => rfl
  | (i, l) :: rest, idx => by
    by_cases hi : i = idx
    · simp [removeRL, hi, lookupRL_removeRL_self rest idx]
    · simp [removeRL, hi, lookupRL, lookupRL_removeRL_self rest idx]

theorem lookupRL_removeRL_ne :
    ∀ (rl : List (Nat × AccountRateLimits)) {idx j : Nat}, j ≠ idx →
      lookupRL (removeRL rl idx) j = lookupRL rl j
  | [], _, _, _ => rfl
  | (i, l) :: rest, idx, j, h => by
    by_cases hi : i = idx
    · subst hi
      simp [removeRL, lookupRL, Ne.symm h, lookupRL_removeRL_ne rest h]
    · by_cases hj : i = j
      · simp [removeRL, hi, lookupRL, hj, h]
      · simp [removeRL, hi, lookupRL, hj, lookupRL_removeRL_ne rest h]

theorem AccountRateLimits.get_clear_ne {fam fam' : ModelFamily}
    (l : AccountRateLimits) (h : fam ≠ fam') : (l.clear fam').get fam = l.get fam := by
  cases fam <;> cases fam' <;> first
    | exact absurd rfl h
    | rfl

/-- Clearing one family never disturbs the other family's slots, on any
account. -/
theorem familyEntry_clearRateLimit_other {fam fam' : ModelFamily}
    (st : ManagerState) (idx' idx : Nat) (h : fam ≠ fam') :
    familyEntry (clearRateLimit st idx' fam') idx fam = familyEntry st idx fam := by
  unfold clearRateLimit
  cases hl : lookupRL st.rateLimits idx' with
  | none => rfl
  | some limits =>
    dsimp only
    split
    · next hboth =>
      unfold familyEntry
      dsimp only
      by_cases hidx : idx = idx'
      · subst hidx
        rw [lookupRL_removeRL_self, hl]
        have hgf : limits.get fam = none := by
          have hc := AccountRateLimits.get_clear_ne limits h
          cases fam
          · rw [← hc]
            exact hboth.1
          · rw [← hc]
            exact hboth.2
        simp [hgf]
      · rw [lookupRL_removeRL_ne st.rateLimits hidx]
    · unfold familyEntry
      dsimp only
      by_cases hidx : idx = idx'
      · subst hidx
        rw [lookupRL_setRL_self, hl]
        simp [AccountRateLimits.get_clear_ne limits h]
      · rw [lookupRL_setRL_ne st.rateLimits _ hidx]

/-- Every spoof substitution crosses the family boundary (Claude models
spoof to Gemini models). -/
theorem spoof_family_ne (m s : AntigravityModel) (h : getSpoofModel m = some s) :
    ModelFamily.fromModelId s.apiId ≠ ModelFamily.fromModelId m.apiId := by
  cases m <;> simp [getSpoofModel] at h <;> subst h <;> decide

theorem rateBranchTrace_clearedPrimary (refreshFn : String → Option TokenPair)
    (now : Int) (st : ManagerState) (account : Account)
    (model : AntigravityModel) (e : String) (calls : StrategyCalls α) :
    (rateBranchTrace refreshFn now st account model e calls).clearedPrimary = false := by
  unfold rateBranchTrace
  dsimp only
  split
  · rfl
  · split <;> rfl

/-- The concrete fallback run of the C5 witness: primary fails with a
parsed rate limit of 30 s, Strategy 1 succeeds. -/
def c5Calls : StrategyCalls Unit :=
  { primary := .error "RATE_LIMITED:30:quota exhausted",
    recoveryRetry := .error "unused", s1 := .ok (), s15ClientOk := false,
    s15 := .error "unused", s2ClientOk := false, s2 := .error "unused" }

/-- A pool with one fresh account and an empty ledger. -/
def c5State : ManagerState :=
  { accounts := [c1Account], rateLimits := [], lastUsedIndex := 0 }

/-- The calls of the S0 sub-witness: the (spoofed) primary call
succeeds. -/
def c5CallsS0 : StrategyCalls Unit :=
  { primary := .ok (), recoveryRetry := .error "unused", s1 := .error "unused",
    s15ClientOk := false, s15 := .error "unused", s2ClientOk := false,
    s2 := .error "unused" }

/-! ## Upstream streaming parse and unary collection
(browser-automator/src/antigravity.rs lines 782-1086) -/

/-- A streaming chunk. -/
structure StreamChunk where
  delta : String
  isThinking : Bool
  isToolUse : Bool
  done : Bool
deriving DecidableEq

/-- Token usage. -/
structure Usage where
  prompt_tokens : Nat
  completion_tokens : Nat
  total_tokens : Nat
deriving DecidableEq

/-- `ChatResponse`. -/
structure ChatResponse where
  content : String
  thinking : Option String
  model : String
  finish_reason : String
  usage : Option Usage
deriving DecidableEq

/-- Escape for the JSON rendering of one character (quote, backslash and
newline; the embedded inputs carry no other control characters). -/
def escapeJsonChar (c : Char) : String :=
  if c.toNat = 34 then "\\\""
  else if c.toNat = 92 then "\\\\"
  else if c.toNat = 10 then "\\n"
  else String.singleton c

def renderJsonString (s : String) : String :=
  "\"" ++ String.join (s.data.map escapeJsonChar) ++ "\""

mutual

/-- `serde_json::to_string` for the modelled values. -/
def Json.render : Json → String
  | .null => "null"
  | .bool b => if b then "true" else "false"
  | .num n => if n < 0 then "-" ++ Nat.repr (-n).toNat else Nat.repr n.toNat
  | .str s => renderJsonString s
  | .arr xs => "[" ++ Json.renderList xs ++ "]"
  | .obj fields => "\x7b" ++ Json.renderFields fields ++ "\x7d"

def Json.renderList : List Json → String
  | [] => ""
  | [x] => Json.render x
  | x :: rest => Json.render x ++ "," ++ Json.renderList rest

def Json.renderFields : List (String × Json) → String
  | [] => ""
  | [(k, v)] => renderJsonString k ++ ":" ++ Json.render v
  | (k, v) :: rest => renderJsonString k ++ ":" ++ Json.render v ++ "," ++ Json.renderFields rest

end

/-- `part.get("thought").and_then(as_bool).unwrap_or(false)`. -/
def thoughtFlag (part : Json) : Bool :=
  match part.get "thought" with
  | some (.bool b) => b
  | _ => false

/-- A text part whose text the streaming parser suppresses. -/
def suppressedPart (part : Json) : Bool :=
  match part.getStr "text" with
  | some text => containsSubstr text "(no content)"
  | none => false

/-- The per-part walk of the streaming parser (antigravity.rs lines
998-1024, identical at 1043-1068): a text part not containing
"(no content)" yields one text/thinking chunk; a `functionCall` part
yields one tool-use chunk whose delta is the serialized Anthropic
`tool_use` fragment with a fresh `call_…` id (`gen` supplies the random
12-hex identifiers, one per call, via the threaded counter). -/
def chunksOfParts (gen : Nat → String) : List Json → Nat → List StreamChunk × Nat
  | [], n => ([], n)
  | part :: rest, n =>
    match part.getStr "text" with
    | some text =>
      if containsSubstr text "(no content)" then chunksOfParts gen rest n
      else
        let r := chunksOfParts gen rest n
        ({ delta := text, isThinking := thoughtFlag part, isToolUse := false,
           done := false } :: r.fst, r.snd)
    | none =>
      match part.get "functionCall" with
      | some call =>
        let toolUse : Json := .obj
          [("type", .str "tool_use"),
           ("id", .str ("call_" ++ gen n)),
           ("name", (call.get "name").getD .null),
           ("input", (call.get "args").getD .null)]
        let r := chunksOfParts gen rest (n + 1)
        ({ delta := toolUse.render, isThinking := false, isToolUse := true,
           done := false } :: r.fst, r.snd)
      | none => chunksOfParts gen rest n

/-- Chunks of one parsed stream event: unwrap the optional `response`
envelope, then walk `candidates[0].content.parts`. -/
def chunksOfValue (gen : Nat → String) (value : Json) (n : Nat) :
    List StreamChunk × Nat :=
  let root := (value.get "response").getD value
  match root.getArr "candidates" with
  | some (first :: _) =>
    match first.get "content" with
    | some content =>
      match content.getArr "parts" with
      | some parts => chunksOfParts gen parts n
      | none => ([], n)
    | none => ([], n)
  | _ => ([], n)

/-- `⟨s.data.drop k⟩`: the byte-level `strip_prefix` remainder at
character granularity (the prefixes used are ASCII). -/
def strDrop (s : String) (k : Nat) : String :=
  ⟨s.data.drop k⟩

/-- Result of one stream line. -/
inductive LineStep where
  | chunks (cs : List StreamChunk) (n : Nat)
  | doneMarker
deriving DecidableEq

/-- One nonempty trimmed line (antigravity.rs lines 985-1079): a
`data: `-prefixed line is unwrapped first, `[DONE]` terminates, every
other line is parsed as bare JSON; unparsable lines are ignored.
`parse` abstracts `serde_json::from_str`. -/
def processLine (parse : String → Option Json) (gen : Nat → String)
    (n : Nat) (line : String) : LineStep :=
  if startsWithStr line "data: " then
    let payload := strDrop line 6
    if payload = "[DONE]" then .doneMarker
    else
      match parse payload with
      | some v =>
        let r := chunksOfValue gen v n
        .chunks r.fst r.snd
      | none => .chunks [] n
  else
    match parse line with
    | some v =>
      let r := chunksOfValue gen v n
      .chunks r.fst r.snd
    | none => .chunks [] n

/-- The lines of one received byte chunk: empty lines are skipped and a
`[DONE]` breaks out of the per-chunk line loop. -/
def streamLinesGroup (parse : String → Option Json) (gen : Nat → String) :
    List String → Nat → List StreamChunk × Nat
  | [], n => ([], n)
  | line :: rest, n =>
    if line = "" then streamLinesGroup parse gen rest n
    else
      match processLine parse gen n line with
      | .doneMarker => ([], n)
      | .chunks cs n' =>
        let r := streamLinesGroup parse gen rest n'
        (cs ++ r.fst, r.snd)

def streamGroups (parse : String → Option Json) (gen : Nat → String) :
    List (List String) → Nat → List StreamChunk × Nat
  | [], n => ([], n)
  | g :: gs, n =>
    let r := streamLinesGroup parse gen g n
    let r' := streamGroups parse gen gs r.snd
    (r.fst ++ r'.fst, r'.snd)

/-- `chat_completion_stream` at line granularity: the parsed chunks of
every received byte group, then the final `done` chunk (line 1082). -/
def chatCompletionStreamChunks (parse : String → Option Json)
    (gen : Nat → String) (groups : List (List String)) : List StreamChunk :=
  (streamGroups parse gen groups 0).fst ++
    [{ delta := "", isThinking := false, isToolUse := false, done := true }]

/-- The collection loop of `chat_completion` (lines 793-806). -/
def collectChatGo (model : AntigravityModel) :
    List StreamChunk → String → String → Bool → ChatResponse
  | [], c, t, h =>
    { content := c, thinking := if h then some t else none,
      model := model.apiId, finish_reason := "stop", usage := none }
  | ch :: rest, c, t, h =>
    if ch.isThinking then collectChatGo model rest c (t ++ ch.delta) true
    else collectChatGo model rest (c ++ ch.delta) t h

/-- `chat_completion` (lines 782-816): since the fix that routes the
unary call through the streaming implementation, it only concatenates the
chunks and hard-codes `finish_reason = "stop"`, `usage = None`. -/
def chatCompletion (model : AntigravityModel) (chunks : List StreamChunk) :
    ChatResponse :=
  collectChatGo model chunks "" "" false

/-- `u.get(key).and_then(as_u64).unwrap_or(0)` (negative numbers are not
u64). -/
def Json.getU64D (j : Json) (key : String) : Nat :=
  match j.get key with
  | some (.num n) => if 0 ≤ n then n.toNat else 0
  | _ => 0

/-- The parts walk of `parse_response` (lines 846-859): thought text
replaces `thinking`, other text appends to `content`. -/
def parseResponseParts : List Json → String → Option String → String × Option String
  | [], c, t => (c, t)
  | p :: rest, c, t =>
    match p.getStr "text" with
    | some text =>
      if thoughtFlag p then parseResponseParts rest c (some text)
      else parseResponseParts rest (c ++ text) t
    | none => parseResponseParts rest c t

/-- `parse_response` (lines 819-887).  Note `usageMetadata` is read from
the RAW value even when the candidates came from a `response` envelope,
exactly as in the source. -/
def parseResponse (raw : Json) (model : AntigravityModel) :
    Except String ChatResponse :=
  let root := (raw.get "response").getD raw
  match root.getArr "candidates" with
  | none => .error "No candidates in response"
  | some [] => .error "Empty candidates array in response"
  | some (first :: _) =>
    match first.get "content" with
    | none => .error "No content parts in response"
    | some content =>
      match content.getArr "parts" with
      | none => .error "No content parts in response"
      | some parts =>
        let walked := parseResponseParts parts "" none
        let finishReason := (first.getStr "finishReason").getD "stop"
        let usage := (raw.get "usageMetadata").map fun u =>
          { prompt_tokens := u.getU64D "promptTokenCount",
            completion_tokens := u.getU64D "candidatesTokenCount",
            total_tokens := u.getU64D "totalTokenCount" : Usage }
        .ok { content := walked.fst, thinking := walked.snd,
              model := model.apiId, finish_reason := finishReason,
              usage := usage }

/-! ### C8: unary carry-through -/

theorem collectChatGo_stop_none (model : AntigravityModel) :
    ∀ (chunks : List StreamChunk) (c t : String) (h : Bool),
      (collectChatGo model chunks c t h).finish_reason = "stop" ∧
      (collectChatGo model chunks c t h).usage = none
  | [], _, _, _ => ⟨rfl, rfl⟩
  | ch :: rest, c, t, h => by
    by_cases hth : ch.isThinking = true
    · simpa [collectChatGo, hth] using collectChatGo_stop_none model rest c (t ++ ch.delta) true
    · simpa [collectChatGo, hth] using collectChatGo_stop_none model rest (c ++ ch.delta) t h

/-- C8 (amended): the unary chat completion never carries the upstream
`finishReason` or `usageMetadata` through — it aggregates the stream and
always reports `finish_reason = "stop"` and `usage = None`, for every
model and every chunk stream. -/
theorem c8_unary_always_stop_and_no_usage (model : AntigravityModel)
    (chunks : List StreamChunk) :
    (chatCompletion model chunks).finish_reason = "stop" ∧
    (chatCompletion model chunks).usage = none :=
  collectChatGo_stop_none model chunks "" "" false

/-- An upstream unary response with a non-default finish reason and usage
counts. -/
def c8Value : Json :=
  .obj [("candidates", .arr [.obj
          [("content", .obj [("parts", .arr [.obj [("text", .str "Hello.")]])]),
           ("finishReason", .str "MAX_TOKENS")]]),
        ("usageMetadata", .obj [("promptTokenCount", .num 5),
                                ("candidatesTokenCount", .num 7),
                                ("totalTokenCount", .num 12)])]

def c8Gen : Nat → String := fun _ => "000000000000"

/-- C8 (counterexample): on an upstream response carrying
`finishReason: MAX_TOKENS` and usage metadata, the unary pipeline
(`chat_completion` over the parsed stream of that response) reports
`"stop"` and no usage, while the unused `parse_response` — the function
the claim describes — would have carried both through. -/
theorem c8_counterexample :
    chatCompletion .gemini3Flash (chunksOfValue c8Gen c8Value 0).fst =
      { content := "Hello.", thinking := none, model := "gemini-3-flash",
        finish_reason := "stop", usage := none } ∧
    parseResponse c8Value .gemini3Flash =
      .ok { content := "Hello.", thinking := none, model := "gemini-3-flash",
            finish_reason := "MAX_TOKENS", usage := some ⟨5, 7, 12⟩ } ∧
    ("stop" : String) ≠ "MAX_TOKENS" := by
  refine ⟨rfl, rfl, by decide⟩

/-! ### C10: "(no content)" suppression -/

/-- The client-visible text of a chunk list: the deltas of the plain text
chunks (thinking and tool-use chunks render elsewhere). -/
def visibleText : List StreamChunk → String
  | [] => ""
  | ch :: rest =>
    (if !ch.isThinking && !ch.isToolUse then ch.delta else "") ++ visibleText rest

/-- The corresponding upstream notion: the concatenated text of the
non-thought text parts. -/
def partsVisibleText : List Json → String
  | [] => ""
  | p :: rest =>
    (match p.getStr "text" with
     | some t => if thoughtFlag p then "" else t
     | none => "") ++ partsVisibleText rest

theorem chunksOfParts_filter_suppressed (gen : Nat → String) :
    ∀ (parts : List Json) (n : Nat),
      chunksOfParts gen parts n =
        chunksOfParts gen (parts.filter (fun p => !(suppressedPart p))) n
  | [], _ => rfl
  | p :: rest, n => by
    cases hp : p.getStr "text" with
    | some t =>
      by_cases hsup : containsSubstr t "(no content)" = true
      · have hs : suppressedPart p = true := by simp [suppressedPart, hp, hsup]
        simp [chunksOfParts, hp, hsup, List.filter_cons, hs,
          chunksOfParts_filter_suppressed gen rest n]
      · have hs : suppressedPart p = false := by
          simp [suppressedPart, hp]
          simpa using hsup
        simp [chunksOfParts, hp, hsup, List.filter_cons, hs,
          chunksOfParts_filter_suppressed gen rest n]
    | none =>
      have hs : suppressedPart p = false := by simp [suppressedPart, hp]
      cases hc : p.get "functionCall" with
      | some call =>
        simp [chunksOfParts, hp, hc, List.filter_cons, hs,
          chunksOfParts_filter_suppressed gen rest (n + 1)]
      | none =>
        simp [chunksOfParts, hp, hc, List.filter_cons, hs,
          chunksOfParts_filter_suppressed gen rest n]

theorem listPrefixTest_append : ∀ (xs ys : List Char),
    listPrefixTest xs (xs ++ ys) = true
  | [], _ => rfl
  | x :: xs, ys => by simp [listPrefixTest, listPrefixTest_append xs ys]

theorem strDrop_data_prefix (s : String) : strDrop ("data: " ++ s) 6 = s := by
  cases s with
  | mk data => rfl

theorem visibleText_chunksOfParts (gen : Nat → String) :
    ∀ (parts : List Json) (n : Nat), (∀ p ∈ parts, suppressedPart p = false) →
      visibleText (chunksOfParts gen parts n).fst = partsVisibleText parts
  | [], _, _ => rfl
  | p :: rest, n, h => by
    have hrest : ∀ q ∈ rest, suppressedPart q = false :=
      fun q hq => h q (List.mem_cons_of_mem p hq)
    cases hp : p.getStr "text" with
    | some t =>
      have hsup : containsSubstr t "(no content)" = false := by
        have hp0 := h p (List.mem_cons_self p rest)
        simpa [suppressedPart, hp] using hp0
      by_cases hth : thoughtFlag p = true
      · simp [chunksOfParts, hp, hsup, visibleText, partsVisibleText, hth,
          visibleText_chunksOfParts gen rest n hrest]
      · simp [chunksOfParts, hp, hsup, visibleText, partsVisibleText, hth,
          visibleText_chunksOfParts gen rest n hrest]
    | none =>
      cases hc : p.get "functionCall" with
      | some call =>
        simp [chunksOfParts, hp, hc, visibleText, partsVisibleText,
          visibleText_chunksOfParts gen rest (n + 1) hrest]
      | none =>
        simp [chunksOfParts, hp, hc, visibleText, partsVisibleText,
          visibleText_chunksOfParts gen rest n hrest]

/-- C10: every streamed text part containing "(no content)" is dropped by
the parser — the chunk list equals that of the part list with the
suppressed parts removed — on the `data: `-prefixed and the bare line
form alike; and when no part contains the marker, the client-visible
text equals the concatenation of the upstream non-thought text parts. -/
theorem c10_no_content_suppressed :
    (∀ (gen : Nat → String) (parts : List Json) (n : Nat),
      chunksOfParts gen parts n =
        chunksOfParts gen (parts.filter (fun p => !(suppressedPart p))) n) ∧
    (∀ (parse : String → Option Json) (gen : Nat → String) (n : Nat)
        (s : String) (v : Json), s ≠ "[DONE]" → parse s = some v →
      processLine parse gen n ("data: " ++ s) =
        .chunks (chunksOfValue gen v n).fst (chunksOfValue gen v n).snd) ∧
    (∀ (parse : String → Option Json) (gen : Nat → String) (n : Nat)
        (s : String) (v : Json), startsWithStr s "data: " = false →
      parse s = some v →
      processLine parse gen n s =
        .chunks (chunksOfValue gen v n).fst (chunksOfValue gen v n).snd) ∧
    (∀ (gen : Nat → String) (parts : List Json) (n : Nat),
      (∀ p ∈ parts, suppressedPart p = false) →
      visibleText (chunksOfParts gen parts n).fst = partsVisibleText parts) := by
  refine ⟨chunksOfParts_filter_suppressed, ?_, ?_, visibleText_chunksOfParts⟩
  · intro parse gen n s v hD hv
    unfold processLine
    have hpref : startsWithStr ("data: " ++ s) "data: " = true := by
      unfold startsWithStr
      cases s with
      | mk data => exact listPrefixTest_append "data: ".data data
    rw [hpref, if_pos rfl, strDrop_data_prefix]
    simp [hD, hv]
  · intro parse gen n s v hnp hv
    unfold processLine
    rw [hnp]
    simp [hv]

def c10Gen : Nat → String := fun _ => "abcdefabcdef"

/-- A parts list with one suppressed part between two visible ones. -/
def c10Parts : List Json :=
  [.obj [("text", .str "Hello ")],
   .obj [("text", .str "(no content)")],
   .obj [("text", .str "world")]]

def c10Value : Json :=
  .obj [("candidates", .arr [.obj
          [("content", .obj [("parts", .arr c10Parts)])]])]

def c10Parse : String → Option Json :=
  fun s => if s = "EV" then some c10Value else none

/-- C10 witness: the theorem applied at a concrete stream — the
suppressed part is dropped on both line forms, and on the clean part
list the visible text is the full concatenation. -/
theorem c10_no_content_suppressed_witness :
    chunksOfParts c10Gen c10Parts 0 =
      chunksOfParts c10Gen (c10Parts.filter (fun p => !(suppressedPart p))) 0 ∧
    processLine c10Parse c10Gen 0 ("data: " ++ "EV") =
      .chunks (chunksOfValue c10Gen c10Value 0).fst
        (chunksOfValue c10Gen c10Value 0).snd ∧
    processLine c10Parse c10Gen 0 "EV" =
      .chunks (chunksOfValue c10Gen c10Value 0).fst
        (chunksOfValue c10Gen c10Value 0).snd ∧
    visibleText (chunksOfParts c10Gen
        [Json.obj [("text", Json.str "Hello ")],
         Json.obj [("text", Json.str "world")]] 0).fst =
      partsVisibleText
        [Json.obj [("text", Json.str "Hello ")],
         Json.obj [("text", Json.str "world")]] := by
  refine ⟨c10_no_content_suppressed.1 c10Gen c10Parts 0,
    c10_no_content_suppressed.2.1 c10Parse c10Gen 0 "EV" c10Value (by decide) rfl,
    c10_no_content_suppressed.2.2.1 c10Parse c10Gen 0 "EV" c10Value (by decide) rfl,
    c10_no_content_suppressed.2.2.2 c10Gen _ 0 (by decide)⟩

/-! ## Streaming SSE mediator (routes.rs `messages_streaming`, lines
933-1520)

The event grammar of the generated stream is embedded as a function from
a request plan — how acquisition resolved, whether the client was built,
and what the upstream stream(s) produced — to the emitted event
sequence.  Event payloads (status text, deltas) do not affect the
grammar and are omitted; indices are the `block_index`/`text_index`
arithmetic of the source. -/

/-- The Anthropic SSE event kinds the handler emits. -/
inductive SseEvent where
  | messageStart
  | blockStart (idx : Nat)
  | blockDelta (idx : Nat)
  | blockStop (idx : Nat)
  | messageDelta
  | messageStop
  | errorEvent
deriving DecidableEq

/-- One item of the upstream chunk stream as the handler sees it: a
text/thinking chunk, a tool-use chunk with the result of re-parsing its
delta, the final done chunk, or a stream error. -/
inductive UpItem where
  | textChunk (delta : String) (thinking : Bool)
  | toolUse (parsed : Option Json)
  | doneChunk
  | chunkErr (msg : String)


/-- Output of the chunk loop (routes.rs lines 1185-1280, duplicated at
1383-1468): emitted events, final text index, whether tool use was seen,
and whether a chunk error aborted the loop. -/
structure ChunkLoopOut where
  events : List SseEvent
  ti : Nat
  hasToolUse : Bool
  errored : Bool
deriving DecidableEq

/-- The chunk loop: `done` breaks; a chunk error yields an `error` event
and returns at once (leaving the current block open); a tool-use chunk
closes the current text block, opens/fills/closes a tool block and
reopens a text block when its delta re-parses, and otherwise leaves the
incremented index dangling; a text chunk yields one delta. -/
def chunkLoop : List UpItem → Nat → ChunkLoopOut
  | [], ti => ⟨[], ti, false, false⟩
  | item :: rest, ti =>
    match item with
    | .doneChunk => ⟨[], ti, false, false⟩
    | .chunkErr _ => ⟨[.errorEvent], ti, false, true⟩
    | .toolUse parsed =>
      match parsed with
      | some _ =>
        let r := chunkLoop rest (ti + 2)
        ⟨[.blockStop ti, .blockStart (ti + 1), .blockDelta (ti + 1),
          .blockStop (ti + 1), .blockStart (ti + 2)] ++ r.events,
         r.ti, true, r.errored⟩
      | none =>
        let r := chunkLoop rest (ti + 1)
        ⟨.blockStop ti :: r.events, r.ti, true, r.errored⟩
    | .textChunk _ _ =>
      let r := chunkLoop rest ti
      ⟨.blockDelta ti :: r.events, r.ti, r.hasToolUse, r.errored⟩

/-- Opening, streaming and finalizing one body block starting at
`startIdx`: on a chunk error the error event ends the stream with the
block left open; otherwise the block is stopped and `message_delta`,
`message_stop` finish the stream. -/
def bodyEvents (items : List UpItem) (startIdx : Nat) : List SseEvent :=
  let r := chunkLoop items startIdx
  .blockStart startIdx ::
    (if r.errored then r.events
     else r.events ++ [.blockStop r.ti, .messageDelta, .messageStop])

/-- How the acquisition loop resolved: an account after `waits` sleep
iterations (each emitting one status delta), optionally via Strategy 0
(one announcement delta); or the wait-cap abort; or the no-accounts
abort. -/
inductive AcqPlan where
  | got (waits : Nat) (viaS0 : Bool)
  | waitCap (waits : Nat)
  | noAccounts (waits : Nat)
deriving DecidableEq

/-- The spoof retry outcome when the first upstream connect fails with a
rate/capacity error and a spoof model exists. -/
inductive SpoofPlan where
  | ok (items : List UpItem)
  | err (msg : String)


/-- The first upstream connect: a stream, or an error (with the plan for
the Strategy-1 retry, consulted only when the error has a rate/capacity
prefix and the model has a spoof). -/
inductive UpstreamPlan where
  | ok (items : List UpItem)
  | err (msg : String) (spoof : SpoofPlan)


/-- One streaming request plan.  `model` is the model in effect after the
acquisition (after a Strategy-0 swap). -/
structure StreamPlan where
  acq : AcqPlan
  clientOk : Bool
  model : AntigravityModel
  upstream : UpstreamPlan


/-- The full event sequence of `messages_streaming` under a plan,
following the source line by line: `message_start` first, status block at
index 0, acquisition status deltas, then either an abort (status block
closed before the error event), or the status close, the body at index 1,
and on a connect error the fallback path — which, with the status block
already closed, opens a NEW status block at index 2 for the announcement
and on spoof failure emits the error event with that block still open. -/
def streamEvents (plan : StreamPlan) : List SseEvent :=
  [.messageStart, .blockStart 0, .blockDelta 0] ++
  match plan.acq with
  | .waitCap w =>
    List.replicate w (.blockDelta 0) ++ [.blockStop 0, .errorEvent]
  | .noAccounts w =>
    List.replicate w (.blockDelta 0) ++ [.blockStop 0, .errorEvent]
  | .got w viaS0 =>
    List.replicate w (.blockDelta 0) ++
    (if viaS0 then [.blockDelta 0] else []) ++
    [.blockDelta 0] ++
    (if plan.clientOk = false then [.blockStop 0, .errorEvent]
     else
      [.blockStop 0] ++
      match plan.upstream with
      | .ok items => bodyEvents items 1
      | .err msg spoof =>
        if startsWithStr msg "RATE_LIMITED:" || startsWithStr msg "CAPACITY_ERROR:" then
          match getSpoofModel plan.model with
          | some _ =>
            [.blockStart 2, .blockDelta 2] ++
            (match spoof with
             | .ok items => [.blockStop 2] ++ bodyEvents items 3
             | .err _ => [.errorEvent])
          | none => [.errorEvent]
        else [.errorEvent])

/-- The block-matching pass of the claimed well-formedness: walk the
events tracking open and closed indices; a start may not duplicate, a
second stop of a started index is forbidden, an `error` event and a
`message_stop` require every started block closed, `message_stop` must
not follow an error and no block stop may follow it, `message_start`
must not reappear, and at the end of the stream every started block must
have been stopped. -/
def blocksPass : List SseEvent → List Nat → List Nat → Bool → Bool → Bool
  | [], openIdx, _, _, _ => openIdx.isEmpty
  | e :: rest, openIdx, closed, seenErr, seenStop =>
    match e with
    | .messageStart => false
    | .blockStart i =>
      if openIdx.contains i || closed.contains i then false
      else blocksPass rest (i :: openIdx) closed seenErr seenStop
    | .blockStop i =>
      if seenStop then false
      else if openIdx.contains i then
        blocksPass rest (openIdx.erase i) (i :: closed) seenErr seenStop
      else if closed.contains i then false
      else blocksPass rest openIdx closed seenErr seenStop
    | .blockDelta _ => blocksPass rest openIdx closed seenErr seenStop
    | .messageDelta => blocksPass rest openIdx closed seenErr seenStop
    | .messageStop =>
      if openIdx.isEmpty && !seenErr then blocksPass rest openIdx closed seenErr true
      else false
    | .errorEvent =>
      if openIdx.isEmpty then blocksPass rest openIdx closed true seenStop
      else false

/-- The well-formedness property claimed of every emitted stream:
`message_start` first, every `content_block_start` matched by exactly one
later `content_block_stop` of the same index, any open block stopped
before an `error` event, and `message_stop` after all block stops and
never after an error. -/
def sseClaimOk : List SseEvent → Bool
  | .messageStart :: rest => blocksPass rest [] [] false false
  | _ => false

/-- The failing plan: account acquired at once, client built, upstream
connected, then the upstream stream fails mid-stream. -/
def c2FailPlan : StreamPlan :=
  { acq := .got 0 false, clientOk := true, model := .claudeSonnet45,
    upstream := .ok [.chunkErr "connection reset"] }

/-- A clean single-chunk run for contrast. -/
def c2CleanPlan : StreamPlan :=
  { acq := .got 0 false, clientOk := true, model := .claudeSonnet45,
    upstream := .ok [.textChunk "Hi" false, .doneChunk] }

/-- C2: on an upstream mid-stream chunk error (routes.rs lines
1269-1278) the handler yields the `error` event and returns WITHOUT
stopping the open text block at index 1, so the emitted stream violates
the claimed well-formedness; the clean run satisfies it.  (The spoof
retry loop at 1457-1465 has the same shape, and a failed spoof retry
additionally leaves the announcement block at index 2 open.) -/
theorem c2_midstream_error_leaves_block_open :
    streamEvents c2FailPlan =
      [.messageStart, .blockStart 0, .blockDelta 0, .blockDelta 0,
       .blockStop 0, .blockStart 1, .errorEvent] ∧
    sseClaimOk (streamEvents c2FailPlan) = false ∧
    sseClaimOk (streamEvents c2CleanPlan) = true := by
  refine ⟨rfl, rfl, rfl⟩

/-! ### C5 continued: the streaming handler ledger
(routes.rs lines 933-1520) -/

/-- What one run of the streaming handler did to the account pool.
`markedCurrent` records the `mark_rate_limited` call issued on a
rate/capacity connect error (routes.rs line 1320, keyed to the family of
the model in effect at the time); `clearedPrimary` records whether the
success clear of lines 1163-1165 fired. -/
structure StreamLedgerOut where
  finalState : ManagerState
  usedFallback : Bool
  clearedPrimary : Bool
  markedCurrent : Option (Nat × ModelFamily × Int)

/-- The model in effect after the streaming acquisition loop: a
Strategy-0 lease swapped in the spoof model (routes.rs lines 1015 and
1028; the branch is entered only when the spoof exists, so the `getD`
default is unreachable); otherwise the model is unchanged. -/
def s0Model (original : AntigravityModel) (viaS0 : Bool) : AntigravityModel :=
  if viaS0 then (getSpoofModel original).getD original else original

/-- Every account-manager ledger operation of `messages_streaming`
(routes.rs lines 933-1520), under the same plan shape as `streamEvents`.
The acquisition loop only leases — `get_available_account` and
`get_available_account_ignoring_rate_limit` never touch the rate-limit
ledger (`getAvailableAccount_rateLimits`) — and a Strategy-0 lease sets
`used_fallback` (line 1029).  On stream-connect success the clear of
lines 1163-1165 runs only when no fallback was used and is keyed to
`original_model`.  On a connect error carrying a `RATE_LIMITED:` or
`CAPACITY_ERROR:` prefix (a `starts_with` check only, line 1307) the
account is marked for the family of the CURRENT model (line 1320) and,
when that model has a spoof, `used_fallback` is set (line 1325) and the
Strategy-1 retry touches the ledger neither on success (the clear is
deliberately skipped, comment at lines 1360-1362) nor on failure — which
is why the spoof plan inside the `err` arm is ignored.  Mid-stream chunk
errors and all other paths perform no ledger operation. -/
def messagesStreamingLedger (now : Int) (st : ManagerState) (account : Account)
    (originalModel : AntigravityModel) :
    AcqPlan → Bool → UpstreamPlan → StreamLedgerOut
  | .waitCap _, _, _ => ⟨st, false, false, none⟩
  | .noAccounts _, _, _ => ⟨st, false, false, none⟩
  | .got _ viaS0, clientOk, upstream =>
    if clientOk = false then ⟨st, viaS0, false, none⟩
    else
      match upstream with
      | .ok _ =>
        if viaS0 then ⟨st, true, false, none⟩
        else
          ⟨clearRateLimit st account.index
              (ModelFamily.fromModelId originalModel.apiId),
            false, true, none⟩
      | .err msg _ =>
        if startsWithStr msg "RATE_LIMITED:" || startsWithStr msg "CAPACITY_ERROR:" then
          match getSpoofModel (s0Model originalModel viaS0) with
          | some _ =>
            ⟨markRateLimited st account.index
                (ModelFamily.fromModelId (s0Model originalModel viaS0).apiId)
                (now + (effectiveSeconds msg : Int)),
              true, false,
              some (account.index,
                ModelFamily.fromModelId (s0Model originalModel viaS0).apiId,
                now + (effectiveSeconds msg : Int))⟩
          | none =>
            ⟨markRateLimited st account.index
                (ModelFamily.fromModelId (s0Model originalModel viaS0).apiId)
                (now + (effectiveSeconds msg : Int)),
              viaS0, false,
              some (account.index,
                ModelFamily.fromModelId (s0Model originalModel viaS0).apiId,
                now + (effectiveSeconds msg : Int))⟩
        else ⟨st, viaS0, false, none⟩

/-- C5: never clear on fallback success, in BOTH handlers.  Non-streaming
body (`messagesAfterAcquire`, routes.rs 552-793): (1) when the primary
call fails with a rate/capacity error and the request nevertheless ends
in `Ok` — S1, S1.5 or S2 produced the response — the handler reports
`used_fallback`, performs no clear, and the primary (account, family)
ledger slot still holds the deadline recorded when the account was
marked; (2) when the request was served pre-emptively spoofed (Strategy 0
swapped the model before the call), a primary-success clear targets only
the spoofed family, so every slot of the requested family is left exactly
as it was; (3) the success clear fires only on runs that used no
fallback.  Streaming handler (`messagesStreamingLedger`, routes.rs
933-1520): (4) when the first connect fails with a rate/capacity error
and the Strategy-1 spoof retry serves the stream, the run reports
`used_fallback`, performs no clear, and the primary (account, family)
slot keeps the deadline recorded by the mark at line 1320; (5) a run
served via a Strategy-0 lease leaves the ledger completely untouched —
`used_fallback` set at line 1029 suppresses the success clear; (6) the
success clear fires only on runs that used no fallback, and it targets
exactly the original (pre-spoof) family of line 1164. -/
theorem c5_no_clear_on_fallback :
    (∀ (α : Type) (refreshFn : String → Option TokenPair) (now : Int)
        (st : ManagerState) (account : Account) (model : AntigravityModel)
        (calls : StrategyCalls α) (e : String) (r : α),
      calls.primary = .error e →
      isRecoverableError e = false →
      isRateOrCapacity e = true →
      (messagesAfterAcquire refreshFn now st account model calls).result = .ok r →
      (messagesAfterAcquire refreshFn now st account model calls).usedFallback = true ∧
      (messagesAfterAcquire refreshFn now st account model calls).clearedPrimary = false ∧
      (messagesAfterAcquire refreshFn now st account model calls).markedPrimary =
        some (account.index, ModelFamily.fromModelId model.apiId,
          now + (effectiveSeconds e : Int)) ∧
      ((familyEntry (messagesAfterAcquire refreshFn now st account model calls).finalState
          account.index (ModelFamily.fromModelId model.apiId)).map
        (fun i => i.untilTime)) = some (now + (effectiveSeconds e : Int))) ∧
    (∀ (α : Type) (refreshFn : String → Option TokenPair) (now : Int)
        (st : ManagerState) (account : Account) (reqModel spoof : AntigravityModel)
        (calls : StrategyCalls α) (r : α),
      getSpoofModel reqModel = some spoof →
      calls.primary = .ok r →
      ∀ idx,
        familyEntry (messagesAfterAcquire refreshFn now st account spoof calls).finalState
            idx (ModelFamily.fromModelId reqModel.apiId) =
          familyEntry st idx (ModelFamily.fromModelId reqModel.apiId)) ∧
    (∀ (α : Type) (refreshFn : String → Option TokenPair) (now : Int)
        (st : ManagerState) (account : Account) (model : AntigravityModel)
        (calls : StrategyCalls α),
      (messagesAfterAcquire refreshFn now st account model calls).clearedPrimary = true →
      (messagesAfterAcquire refreshFn now st account model calls).usedFallback = false) ∧
    (∀ (now : Int) (st : ManagerState) (account : Account)
        (model spoofM : AntigravityModel) (w : Nat) (msg : String)
        (items : List UpItem),
      (startsWithStr msg "RATE_LIMITED:" || startsWithStr msg "CAPACITY_ERROR:") = true →
      getSpoofModel model = some spoofM →
      (messagesStreamingLedger now st account model (.got w false) true
          (.err msg (.ok items))).usedFallback = true ∧
      (messagesStreamingLedger now st account model (.got w false) true
          (.err msg (.ok items))).clearedPrimary = false ∧
      (messagesStreamingLedger now st account model (.got w false) true
          (.err msg (.ok items))).markedCurrent =
        some (account.index, ModelFamily.fromModelId model.apiId,
          now + (effectiveSeconds msg : Int)) ∧
      ((familyEntry (messagesStreamingLedger now st account model (.got w false) true
            (.err msg (.ok items))).finalState
          account.index (ModelFamily.fromModelId model.apiId)).map
        (fun i => i.untilTime)) = some (now + (effectiveSeconds msg : Int))) ∧
    (∀ (now : Int) (st : ManagerState) (account : Account)
        (model : AntigravityModel) (w : Nat) (items : List UpItem),
      messagesStreamingLedger now st account model (.got w true) true (.ok items) =
        ⟨st, true, false, none⟩) ∧
    (∀ (now : Int) (st : ManagerState) (account : Account)
        (model : AntigravityModel) (acq : AcqPlan) (clientOk : Bool)
        (upstream : UpstreamPlan),
      (messagesStreamingLedger now st account model acq clientOk upstream).clearedPrimary
          = true →
      (messagesStreamingLedger now st account model acq clientOk upstream).usedFallback
          = false ∧
      (messagesStreamingLedger now st account model acq clientOk upstream).finalState =
        clearRateLimit st account.index (ModelFamily.fromModelId model.apiId)) := by
  refine ⟨?_, ?_, ?_, ?_, ?_, ?_⟩
  · intro α refreshFn now st account model calls e r hp hrec hrc hok
    have hbranch : messagesAfterAcquire refreshFn now st account model calls =
        rateBranchTrace refreshFn now st account model e calls := by
      simp [messagesAfterAcquire, hp, hrec, hrc]
    rw [hbranch] at hok ⊢
    unfold rateBranchTrace at hok ⊢
    dsimp only at hok ⊢
    cases hfr : (fallbackAttempts refreshFn now
        (markRateLimited st account.index (ModelFamily.fromModelId model.apiId)
          (now + (effectiveSeconds e : Int))) model e calls).fst with
    | ok r' =>
      dsimp only at hok ⊢
      refine ⟨rfl, rfl, rfl, ?_⟩
      rw [familyEntry_eq_of_rateLimits
        (fallbackAttempts_rateLimits refreshFn now _ model e calls)]
      exact familyEntry_markRateLimited_self st account.index _ _
    | error e' =>
      exfalso
      rw [hfr] at hok
      by_cases hpre : (startsWithStr e' "RATE_LIMITED:" ||
          startsWithStr e' "CAPACITY_ERROR:") = true
      · simp [hpre] at hok
      · simp [hpre] at hok
  · intro α refreshFn now st account reqModel spoof calls r hspoof hp idx
    have hfam := spoof_family_ne reqModel spoof hspoof
    have hma : messagesAfterAcquire refreshFn now st account spoof calls =
        { result := .ok r,
          finalState := clearRateLimit st account.index
            (ModelFamily.fromModelId spoof.apiId),
          usedFallback := false, clearedPrimary := true, markedPrimary := none } := by
      simp [messagesAfterAcquire, hp]
    rw [hma]
    exact familyEntry_clearRateLimit_other st account.index idx (Ne.symm hfam)
  · intro α refreshFn now st account model calls h
    cases hp : calls.primary with
    | ok r => simp [messagesAfterAcquire, hp]
    | error e =>
      by_cases hrec : isRecoverableError e = true
      · cases hr2 : calls.recoveryRetry with
        | ok r => simp [messagesAfterAcquire, hp, hrec, hr2]
        | error e2 =>
          by_cases hpre : (startsWithStr e2 "RATE_LIMITED:" ||
              startsWithStr e2 "CAPACITY_ERROR:") = true
          · simp [messagesAfterAcquire, hp, hrec, hr2, hpre] at h
          · simp [messagesAfterAcquire, hp, hrec, hr2, hpre] at h
      · by_cases hrc : isRateOrCapacity e = true
        · have hbranch : messagesAfterAcquire refreshFn now st account model calls =
              rateBranchTrace refreshFn now st account model e calls := by
            simp [messagesAfterAcquire, hp, hrec, hrc]
          rw [hbranch] at h
          rw [rateBranchTrace_clearedPrimary] at h
          cases h
        · simp [messagesAfterAcquire, hp, hrec, hrc] at h
  · intro now st account model spoofM w msg items hpre hspoof
    have hs : s0Model model false = model := rfl
    have hT : messagesStreamingLedger now st account model (.got w false) true
        (.err msg (.ok items)) =
      ⟨markRateLimited st account.index (ModelFamily.fromModelId model.apiId)
          (now + (effectiveSeconds msg : Int)),
        true, false,
        some (account.index, ModelFamily.fromModelId model.apiId,
          now + (effectiveSeconds msg : Int))⟩ := by
      simp [messagesStreamingLedger, hs, hpre, hspoof]
    rw [hT]
    exact ⟨rfl, rfl, rfl, familyEntry_markRateLimited_self st account.index _ _⟩
  · intro now st account model w items
    rfl
  · intro now st account model acq clientOk upstream h
    cases acq with
    | waitCap w => simp [messagesStreamingLedger] at h
    | noAccounts w => simp [messagesStreamingLedger] at h
    | got w viaS0 =>
      by_cases hc : clientOk = false
      · simp [messagesStreamingLedger, hc] at h
      · cases upstream with
        | ok items =>
          by_cases hs0 : viaS0 = true
          · simp [messagesStreamingLedger, hc, hs0] at h
          · have hs0f : viaS0 = false := by
              cases viaS0
              · rfl
              · exact absurd rfl hs0
            exact ⟨by simp [messagesStreamingLedger, hc, hs0f],
                   by simp [messagesStreamingLedger, hc, hs0f]⟩
        | err msg spoof =>
          by_cases hpre : (startsWithStr msg "RATE_LIMITED:" ||
              startsWithStr msg "CAPACITY_ERROR:") = true
          · cases hsp : getSpoofModel (s0Model model viaS0) with
            | some sm => simp [messagesStreamingLedger, hc, hpre, hsp] at h
            | none => simp [messagesStreamingLedger, hc, hpre, hsp] at h
          · simp [messagesStreamingLedger, hc, hpre] at h

/-- C5 witness: the theorem applied at concrete runs.  Non-streaming:
Strategy 1 serves the request, the ledger keeps the (account 0, Claude)
deadline `now+30` and nothing is cleared; the S0 run on the spoofed model
leaves the requested Claude family ledger untouched; the concrete cleared
run used no fallback.  Streaming: the Strategy-1 retry run keeps the
(account 0, Claude) mark at `now+30` with no clear; a Strategy-0 run
leaves the ledger untouched; the concrete cleared streaming run used no
fallback and cleared exactly the original Claude family. -/
theorem c5_no_clear_on_fallback_witness :
    ((messagesAfterAcquire noRefresh 0 c5State c1Account .claudeSonnet45
        c5Calls).usedFallback = true ∧
      (messagesAfterAcquire noRefresh 0 c5State c1Account .claudeSonnet45
        c5Calls).clearedPrimary = false ∧
      (messagesAfterAcquire noRefresh 0 c5State c1Account .claudeSonnet45
        c5Calls).markedPrimary = some (0, .claude, 30) ∧
      ((familyEntry (messagesAfterAcquire noRefresh 0 c5State c1Account
          .claudeSonnet45 c5Calls).finalState 0 .claude).map
        (fun i => i.untilTime)) = some 30) ∧
    familyEntry (messagesAfterAcquire noRefresh 0 c1State c1Account
        .gemini3Flash c5CallsS0).finalState 0
        (ModelFamily.fromModelId AntigravityModel.claudeSonnet45.apiId) =
      familyEntry c1State 0
        (ModelFamily.fromModelId AntigravityModel.claudeSonnet45.apiId) ∧
    (messagesAfterAcquire noRefresh 0 c5State c1Account .claudeSonnet45
        c5CallsS0).usedFallback = false ∧
    ((messagesStreamingLedger 0 c5State c1Account .claudeSonnet45 (.got 0 false)
        true (.err "RATE_LIMITED:30:quota exhausted" (.ok []))).usedFallback = true ∧
      (messagesStreamingLedger 0 c5State c1Account .claudeSonnet45 (.got 0 false)
        true (.err "RATE_LIMITED:30:quota exhausted" (.ok []))).clearedPrimary = false ∧
      (messagesStreamingLedger 0 c5State c1Account .claudeSonnet45 (.got 0 false)
        true (.err "RATE_LIMITED:30:quota exhausted" (.ok []))).markedCurrent =
        some (0, .claude, 30) ∧
      ((familyEntry (messagesStreamingLedger 0 c5State c1Account .claudeSonnet45
          (.got 0 false) true
          (.err "RATE_LIMITED:30:quota exhausted" (.ok []))).finalState 0 .claude).map
        (fun i => i.untilTime)) = some 30) ∧
    messagesStreamingLedger 0 c1State c1Account .claudeSonnet45 (.got 0 true) true
        (.ok []) = ⟨c1State, true, false, none⟩ ∧
    ((messagesStreamingLedger 0 c5State c1Account .claudeSonnet45 (.got 0 false)
        true (.ok [])).usedFallback = false ∧
      (messagesStreamingLedger 0 c5State c1Account .claudeSonnet45 (.got 0 false)
        true (.ok [])).finalState = clearRateLimit c5State 0 .claude) := by
  refine ⟨?_, ?_, ?_, ?_, ?_, ?_⟩
  · have h := c5_no_clear_on_fallback.1 Unit noRefresh 0 c5State c1Account
      .claudeSonnet45 c5Calls "RATE_LIMITED:30:quota exhausted" () rfl rfl rfl rfl
    exact h
  · exact c5_no_clear_on_fallback.2.1 Unit noRefresh 0 c1State c1Account
      .claudeSonnet45 .gemini3Flash c5CallsS0 () rfl rfl 0
  · exact c5_no_clear_on_fallback.2.2.1 Unit noRefresh 0 c5State c1Account
      .claudeSonnet45 c5CallsS0 rfl
  · have h := c5_no_clear_on_fallback.2.2.2.1 0 c5State c1Account
      .claudeSonnet45 .gemini3Flash 0 "RATE_LIMITED:30:quota exhausted" [] rfl rfl
    exact h
  · exact c5_no_clear_on_fallback.2.2.2.2.1 0 c1State c1Account .claudeSonnet45 0 []
  · have h := c5_no_clear_on_fallback.2.2.2.2.2 0 c5State c1Account
      .claudeSonnet45 (.got 0 false) true (.ok []) rfl
    exact h

end AetherBridge
